import Mathlib

/-!
Verification development for the `createGitHubPR` workflow
(`src/unnamed/part_000` of the repository).

The TypeScript function is embedded shallowly: every external operation
(resuming the sandbox, connecting, running a shell command, reading or
writing a file, shutting the sandbox down) becomes an `Effect` recorded in
a trace, and an environment oracle decides, per step, whether the operation
returns an output string or throws a JavaScript value.  JavaScript
`try`/`catch` becomes `M.tryCatch` on a state-passing monad whose state
(the effect counter, the clock counter and the trace) survives a throw,
exactly as side effects survive a thrown exception in JavaScript.
-/

/-- A JavaScript value thrown by an awaited operation: either an `Error`
instance carrying a message, or any other value. -/
inductive JSVal where
  | err (msg : String)
  | nonErr
deriving Repr, DecidableEq

/-- Outcome of one external operation, decided by the environment. -/
inductive Outcome where
  | ok (out : String)
  | thrown (v : JSVal)
deriving Repr, DecidableEq

/-- External operations performed by the workflow, in source order. -/
inductive Effect where
  | resume (id : String)
  | connect
  | runCommand (cmd : String)
  | readTextFile (path : String)
  | writeTextFile (path : String) (content : String)
  | shutdown (id : String)
deriving Repr, DecidableEq

/-- The ambient world: the credential in `process.env`, an oracle giving the
outcome of the i-th external operation, and the wall clock (`Date.now()`
millisecond values and `toISOString()` renderings, indexed by the i-th
clock access of the invocation). -/
structure Env where
  githubToken : Option String
  oracle : Nat → Outcome
  clock : Nat → Nat
  isoClock : Nat → String

/-- Mutable run state: position in the oracle, position in the clock, and
the trace of effects issued so far. -/
structure RunState where
  oIdx : Nat
  tIdx : Nat
  trace : List Effect
deriving Repr, DecidableEq

/-- The workflow monad: state passing plus JavaScript exceptions.  A thrown
exception keeps the state reached so far (effects already happened). -/
def M (α : Type) : Type := RunState → RunState × Except JSVal α

def M.pure {α : Type} (a : α) : M α := fun s => (s, Except.ok a)

def M.bind {α β : Type} (x : M α) (f : α → M β) : M β := fun s =>
  match x s with
  | (s1, Except.ok a) => f a s1
  | (s1, Except.error e) => (s1, Except.error e)

/-- `try { x } catch (e) { h e }`. -/
def M.tryCatch {α : Type} (x : M α) (h : JSVal → M α) : M α := fun s =>
  match x s with
  | (s1, Except.ok a) => (s1, Except.ok a)
  | (s1, Except.error e) => h e s1

/-- Issue one external operation: record it in the trace, consume one oracle
step, and return the output or throw. -/
def effRun (env : Env) (e : Effect) : M String := fun s =>
  ({ s with oIdx := s.oIdx + 1, trace := s.trace ++ [e] },
   match env.oracle s.oIdx with
   | Outcome.ok out => Except.ok out
   | Outcome.thrown v => Except.error v)

/-- `Date.now()`: consume one clock access. -/
def nowMs (env : Env) : M Nat := fun s =>
  ({ s with tIdx := s.tIdx + 1 }, Except.ok (env.clock s.tIdx))

/-- `new Date().toISOString()`: consume one clock access. -/
def nowIso (env : Env) : M String := fun s =>
  ({ s with tIdx := s.tIdx + 1 }, Except.ok (env.isoClock s.tIdx))

/- ## String helpers mirroring the JavaScript string methods used -/

/-- Whitespace as used by JavaScript `trim` and the `\s` regex class
(restricted to the ASCII whitespace characters, which is all the code can
meet in command output). -/
def isJsWs (c : Char) : Bool :=
  c = ' ' || c = '\t' || c = '\n' || c = '\r' || c = '\x0b' || c = '\x0c'

/-- JavaScript `String.prototype.trim`. -/
def jsTrim (s : String) : String :=
  ⟨((s.data.dropWhile isJsWs).reverse.dropWhile isJsWs).reverse⟩

/-- JavaScript `String.prototype.toLowerCase` (ASCII range). -/
def jsToLower (s : String) : String := ⟨s.data.map Char.toLower⟩

/-- `replace(/"/g, "")`: remove every double quote. -/
def stripQuotes (s : String) : String := ⟨s.data.filter (fun c => c ≠ '"')⟩

def gitSuffixL : List Char := ['.', 'g', 'i', 't']

/-- `replace(/\.git$/, "")`: remove one trailing `.git` if present. -/
def stripDotGit (s : String) : String :=
  if gitSuffixL.isSuffixOf s.data then ⟨s.data.take (s.data.length - 4)⟩ else s

/- ## The repository-URL regex
`/github\.com\/([^\/]+)\/([^\/]+)(?:\.git)?(?:\/)?$/` applied with
`String.prototype.match` (first match, leftmost position, greedy groups). -/

def ghHostL : List Char := ['g', 'i', 't', 'h', 'u', 'b', '.', 'c', 'o', 'm', '/']

/-- Match the part of the pattern after the literal `github.com/` against
the rest of the input, which must run to the end of the string.  Group 2 is
greedy, so when the tail has no further `/` it swallows any `.git`; the
optional `.git` and `/` of the pattern only ever absorb a final `/`. -/
def matchTail (l : List Char) : Option (List Char × List Char) :=
  let g1 := l.takeWhile (fun c => c ≠ '/')
  let r1 := l.dropWhile (fun c => c ≠ '/')
  if g1 = [] then none
  else
    match r1 with
    | '/' :: r2 =>
      let g2 := r2.takeWhile (fun c => c ≠ '/')
      let r3 := r2.dropWhile (fun c => c ≠ '/')
      if g2 = [] then none
      else
        match r3 with
        | [] => some (g1, g2)
        | ['/'] => some (g1, g2)
        | _ => none
    | _ => none

/-- Attempt the regex at one start position. -/
def repoMatchAt (l : List Char) : Option (List Char × List Char) :=
  if ghHostL.isPrefixOf l then matchTail (l.drop 11) else none

/-- Leftmost-first scan of the input, as `match` does. -/
def scanRepoMatch : List Char → Option (List Char × List Char)
  | [] => none
  | c :: rest =>
    match repoMatchAt (c :: rest) with
    | some r => some r
    | none => scanRepoMatch rest

/-- The two captured groups of `repoUrl.match(...)`, or `none` when the
regex does not match. -/
def parseGitHubUrl (s : String) : Option (String × String) :=
  (scanRepoMatch s.data).map (fun p => (⟨p.1⟩, ⟨p.2⟩))

/- ## The PR-URL regex `/https:\/\/github\.com\/[^\s]+/` -/

def httpsGhL : List Char :=
  ['h', 't', 't', 'p', 's', ':', '/', '/', 'g', 'i', 't', 'h', 'u', 'b', '.',
   'c', 'o', 'm', '/']

/-- Attempt the PR-URL regex at one start position: the literal prefix then
a maximal nonempty run of non-whitespace characters. -/
def prUrlAt (l : List Char) : Option (List Char) :=
  if httpsGhL.isPrefixOf l then
    let run := (l.drop 19).takeWhile (fun c => ¬ isJsWs c)
    if run = [] then none else some (httpsGhL ++ run)
  else none

/-- Leftmost-first scan for the PR-URL regex. -/
def scanPrUrl : List Char → Option (List Char)
  | [] => none
  | c :: rest =>
    match prUrlAt (c :: rest) with
    | some u => some u
    | none => scanPrUrl rest

/-- First match of `/https:\/\/github\.com\/[^\s]+/` in `s`, if any. -/
def findPrUrl (s : String) : Option String := (scanPrUrl s.data).map (⟨·⟩)

/-- Lines 64-66: strip one trailing `.git`, then lower-case — how the body
normalizes each captured group. -/
def normalizeRepoComponent (s : String) : String := jsToLower (stripDotGit s)

/-- Lines 267-270: the matched URL, or the constructed `pulls` fallback. -/
def extractPrUrl (out owner repoName : String) : String :=
  match findPrUrl out with
  | some u => u
  | none => "https://github.com/" ++ owner ++ "/" ++ repoName ++ "/pulls"

/- ## Data model (`CreatePRResult`, `CreatePROptions`) -/

/-- One caller-supplied file edit. -/
structure FileChange where
  path : String
  content : String
deriving Repr, DecidableEq

/-- The `data` bundle of a successful result. -/
structure PRData where
  prUrl : String
  branchName : String
  sandboxId : String
  forked : Bool
  forkUrl : Option String
deriving Repr, DecidableEq

/-- Result type of `createGitHubPR`; optional fields model the optional
properties of the TypeScript object. -/
structure CreatePRResult where
  success : Bool
  data : Option PRData := none
  error : Option String := none
deriving Repr, DecidableEq

/-- Options of `createGitHubPR`; `none` models an absent property, for
which the destructuring defaults apply. -/
structure CreatePROptions where
  repoUrl : String
  commitMessage : Option String := none
  prTitle : Option String := none
  prBody : Option String := none
  fileChanges : Option (List FileChange) := none

def defaultCommitMessage : String := "feat: Automated update via AI agent"

def defaultPrTitle : String := "🤖 AI Agent Update: Automated changes"

def defaultPrBody : String := "This PR was automatically created by an AI agent."

def tokenErrMsg : String :=
  "GITHUB_PERSONAL_ACCESS_TOKEN environment variable is required"

def urlErrMsg : String := "Invalid GitHub repository URL format"

/-- Message conversion of the outer catch (line 288). -/
def jsErrMsgOuter : JSVal → String
  | JSVal.err m => m
  | JSVal.nonErr => "Unknown error occurred"

/-- Message conversion of the fork catch (line 116). -/
def jsErrMsgFork : JSVal → String
  | JSVal.err m => m
  | JSVal.nonErr => "Unknown error"

/- ## Fixed text fragments built by the workflow -/

/-- Line 216: text appended after an existing README's content. -/
def readmeAppendSection (iso : String) : String :=
  "\n\n## AI Agent Update\n\nThis update was made by an AI agent (code0) using the CodeSandbox API.\n\n- Automated file modification\n- Demonstration of AI-driven development workflow\n- Generated on: " ++ iso

/-- Line 220: content of a freshly created README. -/
def newReadmeContent (repoName iso : String) : String :=
  "# " ++ repoName ++ "\n\n## AI Agent Update\n\nThis repository was updated by an AI agent (code0) using the CodeSandbox API.\n\n- Automated file modification\n- Demonstration of AI-driven development workflow\n- Generated on: " ++ iso

/-- Line 199: the branch name `code0-${Date.now()}`. -/
def mkBranchName (t : Nat) : String := "code0-" ++ toString t

/-- Line 236: commit message plus co-author trailer. -/
def mkFullCommitMessage (commitMessage coAuthor : String) : String :=
  commitMessage ++ "\n\nCo-authored-by: " ++ coAuthor

/-- Lines 247-251: PR body plus the Technical Details block. -/
def mkFullPrBody (prBody authedUser iso owner repoName branchName : String)
    (forked : Bool) (forkUrl : String) : String :=
  prBody ++ "\n\n### Technical Details:\n- **Commit Author**: code0 (AI Agent)\n- **PR Creator**: " ++ authedUser ++ " (via personal access token)\n- **Generated**: " ++ iso ++ "\n- **Repository**: " ++ owner ++ "/" ++ repoName ++ "\n- **Branch**: " ++ branchName
    ++ (if forked then "\n- **Fork**: " ++ forkUrl ++ "\n- **Created from fork**: Yes" else "")

/-- Lines 254-264: the `gh pr create` command, fork and same-repo variants. -/
def prCreateCmd (repoDir prTitle fullPrBody authedUser branchName owner repoName : String)
    (forked : Bool) : String :=
  if forked then
    "cd " ++ repoDir ++ " && gh pr create --title \"" ++ prTitle ++ "\" --body \"" ++ fullPrBody
      ++ "\" --head " ++ authedUser ++ ":" ++ branchName ++ " --base main --repo " ++ owner ++ "/" ++ repoName
  else
    "cd " ++ repoDir ++ " && gh pr create --title \"" ++ prTitle ++ "\" --body \"" ++ fullPrBody
      ++ "\" --head " ++ branchName ++ " --base main"

/- ## The workflow, segment by segment (source lines 68-284) -/

/-- Lines 68-88: resume the sandbox, connect, authenticate the CLI and git,
query the authenticated user.  Returns (sandbox id, raw `gh api user`
output). -/
def authSegment (env : Env) (accessToken : String) : M (String × String) :=
  M.bind (effRun env (Effect.resume "wmwx2g")) fun sandboxId =>
  M.bind (effRun env Effect.connect) fun _ =>
  M.bind (effRun env (Effect.runCommand ("echo \"" ++ accessToken ++ "\" | gh auth login --with-token"))) fun _ =>
  M.bind (effRun env (Effect.runCommand "gh auth setup-git")) fun _ =>
  M.bind (effRun env (Effect.runCommand "git config --global user.name 'code0'")) fun _ =>
  M.bind (effRun env (Effect.runCommand "git config --global user.email 'anthony@crafterstation.com'")) fun _ =>
  M.bind (effRun env (Effect.runCommand "gh api user --jq '.login'")) fun userInfo =>
  M.pure (sandboxId, userInfo)

/-- Lines 90-120: ownership check and "fork" resolution.  The `try` block
only performs assignments (and a log), so the `catch` containing the
`gh repo view` probe is unreachable; it is transcribed nevertheless.
Returns either an early failure result or
(workingRepoUrl, forked, forkUrl). -/
def forkResolve (env : Env) (repoUrl owner repoName authedUser : String) :
    M (CreatePRResult ⊕ (String × Bool × String)) :=
  if owner = authedUser then
    M.pure (Sum.inr (repoUrl, false, ""))
  else
    M.tryCatch
      (M.pure (Sum.inr ("https://github.com/" ++ authedUser ++ "/" ++ repoName, true,
                        "https://github.com/" ++ authedUser ++ "/" ++ repoName)))
      (fun error =>
        M.tryCatch
          (M.bind (effRun env (Effect.runCommand ("gh repo view " ++ authedUser ++ "/" ++ repoName))) fun _ =>
            M.pure (Sum.inr ("https://github.com/" ++ authedUser ++ "/" ++ repoName, true,
                             "https://github.com/" ++ authedUser ++ "/" ++ repoName)))
          (fun _ =>
            M.pure (Sum.inl
              { success := false
                error := some ("Failed to fork repository and no existing fork found: "
                               ++ jsErrMsgFork error) })))

/-- Lines 122-180: reuse a valid clone, repair a broken directory, or clone
afresh; keep the remotes right when forked. -/
def cloneSegment (env : Env) (repoUrl workingRepoUrl repoDir : String) (forked : Bool) : M Unit :=
  M.bind
    (M.tryCatch
      (M.bind (effRun env (Effect.runCommand ("test -d " ++ repoDir ++ " && echo \"exists\" || echo \"not_exists\""))) fun t =>
        M.pure (jsTrim t == "exists"))
      (fun _ => M.pure false)) fun dirExists0 =>
  M.bind
    (if dirExists0 then
      M.tryCatch
        (M.bind (effRun env (Effect.runCommand ("cd " ++ repoDir ++ " && git status"))) fun _ =>
          M.bind
            (if forked then
              M.bind
                (M.tryCatch
                  (M.bind (effRun env (Effect.runCommand ("cd " ++ repoDir ++ " && git remote set-url origin " ++ workingRepoUrl))) fun _ => M.pure ())
                  (fun _ =>
                    M.bind (effRun env (Effect.runCommand ("cd " ++ repoDir ++ " && git remote add origin " ++ workingRepoUrl))) fun _ => M.pure ())) fun _ =>
              M.tryCatch
                (M.bind (effRun env (Effect.runCommand ("cd " ++ repoDir ++ " && git remote add upstream " ++ repoUrl))) fun _ => M.pure ())
                (fun _ =>
                  M.bind (effRun env (Effect.runCommand ("cd " ++ repoDir ++ " && git remote set-url upstream " ++ repoUrl))) fun _ => M.pure ())
            else M.pure ()) fun _ =>
          M.pure true)
        (fun _ =>
          M.bind (effRun env (Effect.runCommand ("rm -rf " ++ repoDir))) fun _ => M.pure false)
     else M.pure false) fun dirExists =>
  if dirExists then M.pure ()
  else
    M.bind (effRun env (Effect.runCommand ("git clone " ++ workingRepoUrl ++ " " ++ repoDir))) fun _ =>
    if forked then
      M.bind (effRun env (Effect.runCommand ("cd " ++ repoDir ++ " && git remote add upstream " ++ repoUrl))) fun _ => M.pure ()
    else M.pure ()

/-- Lines 182-196: check out main, then best-effort upstream sync when
forked, plain pull otherwise. -/
def syncSegment (env : Env) (repoDir : String) (forked : Bool) : M Unit :=
  M.bind (effRun env (Effect.runCommand ("cd " ++ repoDir ++ " && git checkout main"))) fun _ =>
  if forked then
    M.tryCatch
      (M.bind (effRun env (Effect.runCommand ("cd " ++ repoDir ++ " && git fetch upstream"))) fun _ =>
       M.bind (effRun env (Effect.runCommand ("cd " ++ repoDir ++ " && git merge upstream/main"))) fun _ =>
       M.bind (effRun env (Effect.runCommand ("cd " ++ repoDir ++ " && git push origin main"))) fun _ =>
       M.pure ())
      (fun _ => M.pure ())
  else
    M.bind (effRun env (Effect.runCommand ("cd " ++ repoDir ++ " && git pull origin main"))) fun _ =>
    M.pure ()

/-- Lines 198-200: create the timestamped branch and return its name. -/
def branchSegment (env : Env) (repoDir : String) : M String :=
  M.bind (nowMs env) fun t =>
  M.bind (effRun env (Effect.runCommand ("cd " ++ repoDir ++ " && git checkout -b " ++ mkBranchName t))) fun _ =>
  M.pure (mkBranchName t)

/-- Lines 203-209: write every supplied (path, content) pair. -/
def applyFileChanges (env : Env) (repoDir : String) : List FileChange → M Unit
  | [] => M.pure ()
  | c :: rest =>
    M.bind (effRun env (Effect.writeTextFile (repoDir ++ "/" ++ c.path) c.content)) fun _ =>
    applyFileChanges env repoDir rest

/-- Lines 210-223: the default behavior — append an update section to the
README read from the working tree, or (when the read or that write throws)
write a fresh README with the same section. -/
def defaultReadmeUpdate (env : Env) (repoName : String) : M Unit :=
  M.tryCatch
    (M.bind (effRun env (Effect.readTextFile ("./" ++ repoName ++ "/README.md"))) fun readmeResult =>
     M.bind (nowIso env) fun iso =>
     M.bind (effRun env (Effect.writeTextFile ("./" ++ repoName ++ "/README.md")
               (readmeResult ++ readmeAppendSection iso))) fun _ =>
     M.pure ())
    (fun _ =>
     M.bind (nowIso env) fun iso =>
     M.bind (effRun env (Effect.writeTextFile ("./" ++ repoName ++ "/README.md")
               (newReadmeContent repoName iso))) fun _ =>
     M.pure ())

/-- Lines 202-223: apply the caller's edits, or the default README
append/create behavior. -/
def changesSegment (env : Env) (repoName : String) (fileChanges : List FileChange) : M Unit :=
  if fileChanges.length > 0 then applyFileChanges env repoName fileChanges
  else defaultReadmeUpdate env repoName

/-- Lines 225-284: stage, fetch the co-author email, commit, push, create
the PR, extract its URL, shut the sandbox down, and build the success
result. -/
def publishSegment (env : Env) (options : CreatePROptions)
    (owner repoName sandboxId authedUser : String) (forked : Bool)
    (forkUrl branchName : String) : M CreatePRResult :=
  M.bind (effRun env (Effect.runCommand ("cd " ++ repoName ++ " && git add ."))) fun _ =>
  M.bind (effRun env (Effect.runCommand ("cd " ++ repoName ++ " && gh api user --jq '.email // (.login + \"@users.noreply.github.com\")'"))) fun userEmailResult =>
  M.bind (effRun env (Effect.runCommand ("cd " ++ repoName ++ " && git commit -m \""
    ++ mkFullCommitMessage (options.commitMessage.getD defaultCommitMessage)
         (authedUser ++ " <" ++ stripQuotes (jsTrim userEmailResult) ++ ">")
    ++ "\""))) fun _ =>
  M.bind (effRun env (Effect.runCommand ("cd " ++ repoName ++ " && git push --set-upstream origin " ++ branchName))) fun _ =>
  M.bind (nowIso env) fun iso =>
  M.bind (effRun env (Effect.runCommand (prCreateCmd repoName
    (options.prTitle.getD defaultPrTitle)
    (mkFullPrBody (options.prBody.getD defaultPrBody) authedUser iso owner repoName branchName forked forkUrl)
    authedUser branchName owner repoName forked))) fun prResult =>
  M.bind (effRun env (Effect.shutdown sandboxId)) fun _ =>
  M.pure
    { success := true
      data := some
        { prUrl := extractPrUrl prResult owner repoName
          branchName := branchName
          sandboxId := sandboxId
          forked := forked
          forkUrl := if forked then some forkUrl else none }
      error := none }

/-- Lines 122-284 composed, once the working repository is known. -/
def mainFlow (env : Env) (options : CreatePROptions)
    (owner repoName sandboxId authedUser workingRepoUrl : String)
    (forked : Bool) (forkUrl : String) : M CreatePRResult :=
  M.bind (cloneSegment env options.repoUrl workingRepoUrl repoName forked) fun _ =>
  M.bind (syncSegment env repoName forked) fun _ =>
  M.bind (branchSegment env repoName) fun branchName =>
  M.bind (changesSegment env repoName (options.fileChanges.getD [])) fun _ =>
  publishSegment env options owner repoName sandboxId authedUser forked forkUrl branchName

/-- Lines 90-284: everything after the authenticated user is known. -/
def afterAuth (env : Env) (options : CreatePROptions)
    (owner repoName sandboxId authedUser : String) : M CreatePRResult :=
  M.bind (forkResolve env options.repoUrl owner repoName authedUser) fun fr =>
  match fr with
  | Sum.inl res => M.pure res
  | Sum.inr wf => mainFlow env options owner repoName sandboxId authedUser wf.1 wf.2.1 wf.2.2

/-- Lines 42-284: the body of the top-level `try`. -/
def createGitHubPRBody (env : Env) (options : CreatePROptions) : M CreatePRResult :=
  match env.githubToken with
  | none => M.pure { success := false, error := some tokenErrMsg }
  | some accessToken =>
    if accessToken = "" then M.pure { success := false, error := some tokenErrMsg }
    else
      match parseGitHubUrl options.repoUrl with
      | none => M.pure { success := false, error := some urlErrMsg }
      | some (ownerRaw, repoRaw) =>
        M.bind (authSegment env accessToken) fun auth =>
        afterAuth env options
          (normalizeRepoComponent ownerRaw) (normalizeRepoComponent repoRaw)
          auth.1 (jsToLower (jsTrim auth.2))

/-- Lines 42-291: body wrapped in the coarse error boundary. -/
def createGitHubPRM (env : Env) (options : CreatePROptions) : M CreatePRResult :=
  M.tryCatch (createGitHubPRBody env options)
    (fun error => M.pure { success := false, error := some (jsErrMsgOuter error) })

def initState : RunState := ⟨0, 0, []⟩

/-- One invocation: final state and monadic result from a fresh state. -/
def runCreateGitHubPR (env : Env) (options : CreatePROptions) :
    RunState × Except JSVal CreatePRResult :=
  createGitHubPRM env options initState

/-- The value `createGitHubPR` resolves with.  The error branch of the
match is unreachable (the boundary catches everything); it is mapped like
the boundary for totality. -/
def createGitHubPR (env : Env) (options : CreatePROptions) : CreatePRResult :=
  match (runCreateGitHubPR env options).2 with
  | Except.ok r => r
  | Except.error e => { success := false, error := some (jsErrMsgOuter e) }

/-- The effects one invocation issues, in order. -/
def traceOf (env : Env) (options : CreatePROptions) : List Effect :=
  (runCreateGitHubPR env options).1.trace

/- ## Proof machinery: compositional predicates over `M` -/

/-- Every `ok` value of `x` satisfies `P`. -/
def ResultOK {α : Type} (x : M α) (P : α → Prop) : Prop :=
  ∀ s s1 a, x s = (s1, Except.ok a) → P a

theorem resultOK_pure {α : Type} {a : α} {P : α → Prop} (h : P a) :
    ResultOK (M.pure a) P := by
  intro s s1 b hb
  simp only [M.pure, Prod.mk.injEq, Except.ok.injEq] at hb
  exact hb.2 ▸ h

theorem resultOK_bind {α β : Type} {x : M α} {f : α → M β} {q : α → Prop}
    {P : β → Prop} (hx : ResultOK x q) (hf : ∀ a, q a → ResultOK (f a) P) :
    ResultOK (M.bind x f) P := by
  intro s s1 b hb
  unfold M.bind at hb
  rcases h2 : x s with ⟨s2, r⟩
  rw [h2] at hb
  cases r with
  | ok a => exact hf a (hx s s2 a h2) s2 s1 b hb
  | error e => simp at hb

theorem resultOK_bindAny {α β : Type} {x : M α} {f : α → M β} {P : β → Prop}
    (hf : ∀ a, ResultOK (f a) P) : ResultOK (M.bind x f) P :=
  resultOK_bind (q := fun _ => True) (fun _ _ _ _ => trivial)
    (fun a _ => hf a)

theorem resultOK_tryCatch {α : Type} {x : M α} {h : JSVal → M α} {P : α → Prop}
    (hx : ResultOK x P) (hh : ∀ e, ResultOK (h e) P) :
    ResultOK (M.tryCatch x h) P := by
  intro s s1 b hb
  unfold M.tryCatch at hb
  rcases h2 : x s with ⟨s2, r⟩
  rw [h2] at hb
  cases r with
  | ok a =>
    simp only [Prod.mk.injEq, Except.ok.injEq] at hb
    exact hb.2 ▸ hx s s2 a h2
  | error e => exact hh e s2 s1 b hb

theorem resultOK_ite {α : Type} {c : Prop} [Decidable c] {x y : M α}
    {P : α → Prop} (hx : ResultOK x P) (hy : ResultOK y P) :
    ResultOK (if c then x else y) P := by
  by_cases h : c
  · simpa [h] using hx
  · simpa [h] using hy

theorem resultOK_effRun {env : Env} {e : Effect} {P : String → Prop}
    (h : ∀ out, P out) : ResultOK (effRun env e) P :=
  fun _ _ _ _ => h _

/-- Every effect `x` appends to the trace satisfies `Q` (stated as: traces
of all-`Q` effects stay all-`Q`). -/
def TraceAll (Q : Effect → Prop) {α : Type} (x : M α) : Prop :=
  ∀ s, (∀ e ∈ s.trace, Q e) → ∀ e ∈ (x s).1.trace, Q e

theorem traceAll_pure {Q : Effect → Prop} {α : Type} {a : α} :
    TraceAll Q (M.pure a) := fun _ hs => hs

theorem traceAll_bindP {Q : Effect → Prop} {α β : Type} {x : M α}
    {f : α → M β} {q : α → Prop} (hx : TraceAll Q x) (hr : ResultOK x q)
    (hf : ∀ a, q a → TraceAll Q (f a)) : TraceAll Q (M.bind x f) := by
  intro s hs e he
  unfold M.bind at he
  rcases h2 : x s with ⟨s2, r⟩
  rw [h2] at he
  have hx2 : ∀ e2 ∈ s2.trace, Q e2 := by
    have := hx s hs
    rw [h2] at this
    exact this
  cases r with
  | ok a => exact hf a (hr s s2 a h2) s2 hx2 e he
  | error e2 => exact hx2 e he

theorem traceAll_bind {Q : Effect → Prop} {α β : Type} {x : M α}
    {f : α → M β} (hx : TraceAll Q x) (hf : ∀ a, TraceAll Q (f a)) :
    TraceAll Q (M.bind x f) :=
  traceAll_bindP (q := fun _ => True) hx (fun _ _ _ _ => trivial)
    (fun a _ => hf a)

theorem traceAll_tryCatch {Q : Effect → Prop} {α : Type} {x : M α}
    {h : JSVal → M α} (hx : TraceAll Q x) (hh : ∀ e, TraceAll Q (h e)) :
    TraceAll Q (M.tryCatch x h) := by
  intro s hs e he
  unfold M.tryCatch at he
  rcases h2 : x s with ⟨s2, r⟩
  rw [h2] at he
  have hx2 : ∀ e2 ∈ s2.trace, Q e2 := by
    have := hx s hs
    rw [h2] at this
    exact this
  cases r with
  | ok a => exact hx2 e he
  | error e2 => exact hh e2 s2 hx2 e he

theorem traceAll_ite {Q : Effect → Prop} {α : Type} {c : Prop} [Decidable c]
    {x y : M α} (hx : TraceAll Q x) (hy : TraceAll Q y) :
    TraceAll Q (if c then x else y) := by
  by_cases h : c
  · simpa [h] using hx
  · simpa [h] using hy

theorem traceAll_effRun {Q : Effect → Prop} {env : Env} {e : Effect}
    (hq : Q e) : TraceAll Q (effRun env e) := by
  intro s hs e2 he2
  simp only [effRun] at he2
  rcases List.mem_append.mp he2 with h | h
  · exact hs _ h
  · rw [List.mem_singleton.mp h]
    exact hq

theorem traceAll_nowMs {Q : Effect → Prop} {env : Env} :
    TraceAll Q (nowMs env) := fun _ hs => hs

theorem traceAll_nowIso {Q : Effect → Prop} {env : Env} :
    TraceAll Q (nowIso env) := fun _ hs => hs

/-- The trace only grows. -/
def GrowsTrace {α : Type} (x : M α) : Prop :=
  ∀ s, ∃ l, (x s).1.trace = s.trace ++ l

theorem growsTrace_pure {α : Type} {a : α} : GrowsTrace (M.pure a) :=
  fun s => ⟨[], by simp [M.pure]⟩

theorem growsTrace_bind {α β : Type} {x : M α} {f : α → M β}
    (hx : GrowsTrace x) (hf : ∀ a, GrowsTrace (f a)) :
    GrowsTrace (M.bind x f) := by
  intro s
  unfold M.bind
  rcases h2 : x s with ⟨s2, r⟩
  rcases hx s with ⟨l1, hl1⟩
  rw [h2] at hl1
  cases r with
  | ok a =>
    rcases hf a s2 with ⟨l2, hl2⟩
    exact ⟨l1 ++ l2, by rw [hl2, hl1, List.append_assoc]⟩
  | error e => exact ⟨l1, hl1⟩

theorem growsTrace_tryCatch {α : Type} {x : M α} {h : JSVal → M α}
    (hx : GrowsTrace x) (hh : ∀ e, GrowsTrace (h e)) :
    GrowsTrace (M.tryCatch x h) := by
  intro s
  unfold M.tryCatch
  rcases h2 : x s with ⟨s2, r⟩
  rcases hx s with ⟨l1, hl1⟩
  rw [h2] at hl1
  cases r with
  | ok a => exact ⟨l1, hl1⟩
  | error e =>
    rcases hh e s2 with ⟨l2, hl2⟩
    exact ⟨l1 ++ l2, by rw [hl2, hl1, List.append_assoc]⟩

theorem growsTrace_ite {α : Type} {c : Prop} [Decidable c] {x y : M α}
    (hx : GrowsTrace x) (hy : GrowsTrace y) :
    GrowsTrace (if c then x else y) := by
  by_cases h : c
  · simpa [h] using hx
  · simpa [h] using hy

theorem growsTrace_effRun {env : Env} {e : Effect} :
    GrowsTrace (effRun env e) := fun s => ⟨[e], rfl⟩

theorem growsTrace_nowMs {env : Env} : GrowsTrace (nowMs env) :=
  fun s => ⟨[], by simp [nowMs]⟩

theorem growsTrace_nowIso {env : Env} : GrowsTrace (nowIso env) :=
  fun s => ⟨[], by simp [nowIso]⟩

/-- An environment whose oracle never throws. -/
def OkEnv (env : Env) : Prop := ∀ i v, env.oracle i ≠ Outcome.thrown v

/-- `x` always returns an `ok` value. -/
def NoThrow {α : Type} (x : M α) : Prop :=
  ∀ s, ∃ s1 a, x s = (s1, Except.ok a)

theorem noThrow_pure {α : Type} {a : α} : NoThrow (M.pure a) :=
  fun s => ⟨s, a, rfl⟩

theorem noThrow_bind {α β : Type} {x : M α} {f : α → M β}
    (hx : NoThrow x) (hf : ∀ a, NoThrow (f a)) : NoThrow (M.bind x f) := by
  intro s
  rcases hx s with ⟨s1, a, ha⟩
  rcases hf a s1 with ⟨s2, b, hb⟩
  exact ⟨s2, b, by unfold M.bind; rw [ha]; exact hb⟩

theorem noThrow_tryCatch {α : Type} {x : M α} {h : JSVal → M α}
    (hx : NoThrow x) : NoThrow (M.tryCatch x h) := by
  intro s
  rcases hx s with ⟨s1, a, ha⟩
  exact ⟨s1, a, by unfold M.tryCatch; rw [ha]⟩

theorem noThrow_ite {α : Type} {c : Prop} [Decidable c] {x y : M α}
    (hx : NoThrow x) (hy : NoThrow y) : NoThrow (if c then x else y) := by
  by_cases h : c
  · simpa [h] using hx
  · simpa [h] using hy

theorem noThrow_effRun {env : Env} {e : Effect} (h : OkEnv env) :
    NoThrow (effRun env e) := by
  intro s
  rcases h2 : env.oracle s.oIdx with out | v
  · exact ⟨_, out, by unfold effRun; rw [h2]⟩
  · exact absurd h2 (h s.oIdx v)

theorem noThrow_nowMs {env : Env} : NoThrow (nowMs env) :=
  fun s => ⟨_, _, rfl⟩

theorem noThrow_nowIso {env : Env} : NoThrow (nowIso env) :=
  fun s => ⟨_, _, rfl⟩

/-- File-system effects (reads and writes) of a trace. -/
def isFsEffect : Effect → Bool
  | Effect.readTextFile _ => true
  | Effect.writeTextFile _ _ => true
  | _ => false

def fsEffects (tr : List Effect) : List Effect := tr.filter isFsEffect

/-- `x` issues no file-system effect. -/
def FsQuiet {α : Type} (x : M α) : Prop :=
  ∀ s, fsEffects (x s).1.trace = fsEffects s.trace

theorem fsQuiet_pure {α : Type} {a : α} : FsQuiet (M.pure a) := fun _ => rfl

theorem fsQuiet_bind {α β : Type} {x : M α} {f : α → M β}
    (hx : FsQuiet x) (hf : ∀ a, FsQuiet (f a)) : FsQuiet (M.bind x f) := by
  intro s
  unfold M.bind
  rcases h2 : x s with ⟨s2, r⟩
  have hx2 := hx s
  rw [h2] at hx2
  cases r with
  | ok a => rw [hf a s2, hx2]
  | error e => exact hx2

theorem fsQuiet_tryCatch {α : Type} {x : M α} {h : JSVal → M α}
    (hx : FsQuiet x) (hh : ∀ e, FsQuiet (h e)) : FsQuiet (M.tryCatch x h) := by
  intro s
  unfold M.tryCatch
  rcases h2 : x s with ⟨s2, r⟩
  have hx2 := hx s
  rw [h2] at hx2
  cases r with
  | ok a => exact hx2
  | error e => rw [hh e s2, hx2]

theorem fsQuiet_ite {α : Type} {c : Prop} [Decidable c] {x y : M α}
    (hx : FsQuiet x) (hy : FsQuiet y) : FsQuiet (if c then x else y) := by
  by_cases h : c
  · simpa [h] using hx
  · simpa [h] using hy

theorem fsQuiet_effRun {env : Env} {e : Effect} (h : isFsEffect e = false) :
    FsQuiet (effRun env e) := by
  intro s
  simp [effRun, fsEffects, List.filter_append, h]

theorem fsQuiet_nowMs {env : Env} : FsQuiet (nowMs env) := fun _ => rfl

theorem fsQuiet_nowIso {env : Env} : FsQuiet (nowIso env) := fun _ => rfl

/-- `x` never reads the clock. -/
def TIdxQuiet {α : Type} (x : M α) : Prop :=
  ∀ s, (x s).1.tIdx = s.tIdx

theorem tIdxQuiet_pure {α : Type} {a : α} : TIdxQuiet (M.pure a) := fun _ => rfl

theorem tIdxQuiet_bind {α β : Type} {x : M α} {f : α → M β}
    (hx : TIdxQuiet x) (hf : ∀ a, TIdxQuiet (f a)) : TIdxQuiet (M.bind x f) := by
  intro s
  unfold M.bind
  rcases h2 : x s with ⟨s2, r⟩
  have hx2 := hx s
  rw [h2] at hx2
  cases r with
  | ok a => rw [hf a s2, hx2]
  | error e => exact hx2

theorem tIdxQuiet_tryCatch {α : Type} {x : M α} {h : JSVal → M α}
    (hx : TIdxQuiet x) (hh : ∀ e, TIdxQuiet (h e)) : TIdxQuiet (M.tryCatch x h) := by
  intro s
  unfold M.tryCatch
  rcases h2 : x s with ⟨s2, r⟩
  have hx2 := hx s
  rw [h2] at hx2
  cases r with
  | ok a => exact hx2
  | error e => rw [hh e s2, hx2]

theorem tIdxQuiet_ite {α : Type} {c : Prop} [Decidable c] {x y : M α}
    (hx : TIdxQuiet x) (hy : TIdxQuiet y) : TIdxQuiet (if c then x else y) := by
  by_cases h : c
  · simpa [h] using hx
  · simpa [h] using hy

theorem tIdxQuiet_effRun {env : Env} {e : Effect} : TIdxQuiet (effRun env e) :=
  fun _ => rfl

/- ## Stepping equations -/

theorem bind_effRun_eq {env : Env} {e : Effect} {β : Type} {f : String → M β} {s : RunState} :
    M.bind (effRun env e) f s =
      match env.oracle s.oIdx with
      | Outcome.ok out => f out { s with oIdx := s.oIdx + 1, trace := s.trace ++ [e] }
      | Outcome.thrown v => ({ s with oIdx := s.oIdx + 1, trace := s.trace ++ [e] }, Except.error v) := by
  rcases h : env.oracle s.oIdx with out | v <;>
    simp [M.bind, effRun, h]

theorem bind_nowMs_eq {env : Env} {β : Type} {f : Nat → M β} {s : RunState} :
    M.bind (nowMs env) f s = f (env.clock s.tIdx) { s with tIdx := s.tIdx + 1 } := rfl

theorem bind_nowIso_eq {env : Env} {β : Type} {f : String → M β} {s : RunState} :
    M.bind (nowIso env) f s = f (env.isoClock s.tIdx) { s with tIdx := s.tIdx + 1 } := rfl

theorem bind_pure_eq {α β : Type} {a : α} {f : α → M β} {s : RunState} :
    M.bind (M.pure a) f s = f a s := rfl

/-- A `try` whose body cannot throw never runs its `catch`. -/
theorem tryCatch_pure {α : Type} {a : α} {h : JSVal → M α} :
    M.tryCatch (M.pure a) h = M.pure a := rfl

/- ## The authentication segment, characterized on its success path -/

def authEffects (accessToken : String) : List Effect :=
  [Effect.resume "wmwx2g", Effect.connect,
   Effect.runCommand ("echo \"" ++ accessToken ++ "\" | gh auth login --with-token"),
   Effect.runCommand "gh auth setup-git",
   Effect.runCommand "git config --global user.name 'code0'",
   Effect.runCommand "git config --global user.email 'anthony@crafterstation.com'",
   Effect.runCommand "gh api user --jq '.login'"]

/-- When `authSegment` returns `ok (sandboxId, userInfo)`, the sandbox id is
the output of oracle step 0 of the segment and the user info that of step 6,
seven oracle steps were consumed, the clock was untouched, and exactly the
seven authentication effects were appended. -/
theorem authSegment_ok {env : Env} {tok : String} {s s1 : RunState} {p : String × String}
    (h : authSegment env tok s = (s1, Except.ok p)) :
    env.oracle s.oIdx = Outcome.ok p.1 ∧ env.oracle (s.oIdx + 6) = Outcome.ok p.2 ∧
    s1.oIdx = s.oIdx + 7 ∧ s1.tIdx = s.tIdx ∧ s1.trace = s.trace ++ authEffects tok := by
  unfold authSegment at h
  rw [bind_effRun_eq] at h
  rcases h0 : env.oracle s.oIdx with o0 | v0 <;> rw [h0] at h <;> dsimp only at h
  case thrown => simp at h
  rw [bind_effRun_eq] at h
  dsimp only at h
  rcases h1 : env.oracle (s.oIdx + 1) with o1 | v1 <;> rw [h1] at h <;> dsimp only at h
  case thrown => simp at h
  rw [bind_effRun_eq] at h
  dsimp only at h
  rcases h2 : env.oracle (s.oIdx + 1 + 1) with o2 | v2 <;> rw [h2] at h <;> dsimp only at h
  case thrown => simp at h
  rw [bind_effRun_eq] at h
  dsimp only at h
  rcases h3 : env.oracle (s.oIdx + 1 + 1 + 1) with o3 | v3 <;> rw [h3] at h <;> dsimp only at h
  case thrown => simp at h
  rw [bind_effRun_eq] at h
  dsimp only at h
  rcases h4 : env.oracle (s.oIdx + 1 + 1 + 1 + 1) with o4 | v4 <;> rw [h4] at h <;> dsimp only at h
  case thrown => simp at h
  rw [bind_effRun_eq] at h
  dsimp only at h
  rcases h5 : env.oracle (s.oIdx + 1 + 1 + 1 + 1 + 1) with o5 | v5 <;> rw [h5] at h <;> dsimp only at h
  case thrown => simp at h
  rw [bind_effRun_eq] at h
  dsimp only at h
  rcases h6 : env.oracle (s.oIdx + 1 + 1 + 1 + 1 + 1 + 1) with o6 | v6 <;> rw [h6] at h <;> dsimp only at h
  case thrown => simp at h
  simp only [M.pure, M.bind, Prod.mk.injEq, Except.ok.injEq] at h
  obtain ⟨hs1, hp⟩ := h
  have he : s.oIdx + 1 + 1 + 1 + 1 + 1 + 1 = s.oIdx + 6 := by omega
  rw [he] at h6
  refine ⟨by rw [← hp], by rw [← hp], ?_, ?_, ?_⟩
  · rw [← hs1]
  · rw [← hs1]
  · rw [← hs1]
    simp [authEffects, List.append_assoc]

/- ## `forkResolve`: the probe is dead code -/

/-- Owner case: no fork, work on the input URL. -/
theorem forkResolve_own {env : Env} {repoUrl owner repoName authedUser : String}
    (h : owner = authedUser) :
    forkResolve env repoUrl owner repoName authedUser =
      M.pure (Sum.inr (repoUrl, false, "")) := by
  simp [forkResolve, h]

/-- Non-owner case: the guarded block cannot throw, so the fork is assumed
unconditionally and the probe in the catch never runs. -/
theorem forkResolve_fork {env : Env} {repoUrl owner repoName authedUser : String}
    (h : ¬ owner = authedUser) :
    forkResolve env repoUrl owner repoName authedUser =
      M.pure (Sum.inr ("https://github.com/" ++ authedUser ++ "/" ++ repoName, true,
                       "https://github.com/" ++ authedUser ++ "/" ++ repoName)) := by
  simp [forkResolve, h, tryCatch_pure]

/-- `forkResolve` always resolves, to one of the two triples. -/
theorem forkResolve_cases (env : Env) (repoUrl owner repoName authedUser : String) :
    ∃ w fk fu, forkResolve env repoUrl owner repoName authedUser =
      M.pure (Sum.inr (w, fk, fu)) := by
  by_cases h : owner = authedUser
  · exact ⟨repoUrl, false, "", forkResolve_own h⟩
  · exact ⟨_, true, _, forkResolve_fork h⟩

/- ## Per-segment structural lemmas -/

theorem growsTrace_authSegment {env : Env} {tok : String} :
    GrowsTrace (authSegment env tok) := by
  unfold authSegment
  repeat
    first
      | exact growsTrace_pure
      | refine growsTrace_bind growsTrace_effRun (fun _ => ?_)

theorem noThrow_authSegment {env : Env} {tok : String} (h : OkEnv env) :
    NoThrow (authSegment env tok) := by
  unfold authSegment
  repeat
    first
      | exact noThrow_pure
      | refine noThrow_bind (noThrow_effRun h) (fun _ => ?_)

theorem fsQuiet_authSegment {env : Env} {tok : String} :
    FsQuiet (authSegment env tok) := by
  unfold authSegment
  repeat
    first
      | exact fsQuiet_pure
      | refine fsQuiet_bind (fsQuiet_effRun rfl) (fun _ => ?_)

theorem tIdxQuiet_authSegment {env : Env} {tok : String} :
    TIdxQuiet (authSegment env tok) := by
  unfold authSegment
  repeat
    first
      | exact tIdxQuiet_pure
      | refine tIdxQuiet_bind tIdxQuiet_effRun (fun _ => ?_)

theorem growsTrace_forkResolve {env : Env} {u o r a : String} :
    GrowsTrace (forkResolve env u o r a) := by
  rcases forkResolve_cases env u o r a with ⟨w, fk, fu, heq⟩
  rw [heq]
  exact growsTrace_pure

theorem noThrow_forkResolve {env : Env} {u o r a : String} :
    NoThrow (forkResolve env u o r a) := by
  rcases forkResolve_cases env u o r a with ⟨w, fk, fu, heq⟩
  rw [heq]
  exact noThrow_pure

theorem fsQuiet_forkResolve {env : Env} {u o r a : String} :
    FsQuiet (forkResolve env u o r a) := by
  rcases forkResolve_cases env u o r a with ⟨w, fk, fu, heq⟩
  rw [heq]
  exact fsQuiet_pure

theorem tIdxQuiet_forkResolve {env : Env} {u o r a : String} :
    TIdxQuiet (forkResolve env u o r a) := by
  rcases forkResolve_cases env u o r a with ⟨w, fk, fu, heq⟩
  rw [heq]
  exact tIdxQuiet_pure

theorem growsTrace_cloneSegment {env : Env} {ru wu d : String} {fk : Bool} :
    GrowsTrace (cloneSegment env ru wu d fk) := by
  unfold cloneSegment
  repeat
    first
      | exact growsTrace_pure
      | apply growsTrace_ite
      | refine growsTrace_tryCatch ?_ (fun _ => ?_)
      | refine growsTrace_bind growsTrace_effRun (fun _ => ?_)
      | refine growsTrace_bind ?_ (fun _ => ?_)

theorem noThrow_cloneSegment {env : Env} {ru wu d : String} {fk : Bool}
    (h : OkEnv env) : NoThrow (cloneSegment env ru wu d fk) := by
  unfold cloneSegment
  repeat
    first
      | exact noThrow_pure
      | apply noThrow_ite
      | apply noThrow_tryCatch
      | refine noThrow_bind (noThrow_effRun h) (fun _ => ?_)
      | refine noThrow_bind ?_ (fun _ => ?_)

theorem fsQuiet_cloneSegment {env : Env} {ru wu d : String} {fk : Bool} :
    FsQuiet (cloneSegment env ru wu d fk) := by
  unfold cloneSegment
  repeat
    first
      | exact fsQuiet_pure
      | apply fsQuiet_ite
      | refine fsQuiet_tryCatch ?_ (fun _ => ?_)
      | refine fsQuiet_bind (fsQuiet_effRun rfl) (fun _ => ?_)
      | refine fsQuiet_bind ?_ (fun _ => ?_)

theorem tIdxQuiet_cloneSegment {env : Env} {ru wu d : String} {fk : Bool} :
    TIdxQuiet (cloneSegment env ru wu d fk) := by
  unfold cloneSegment
  repeat
    first
      | exact tIdxQuiet_pure
      | apply tIdxQuiet_ite
      | refine tIdxQuiet_tryCatch ?_ (fun _ => ?_)
      | refine tIdxQuiet_bind tIdxQuiet_effRun (fun _ => ?_)
      | refine tIdxQuiet_bind ?_ (fun _ => ?_)

theorem growsTrace_syncSegment {env : Env} {d : String} {fk : Bool} :
    GrowsTrace (syncSegment env d fk) := by
  unfold syncSegment
  repeat
    first
      | exact growsTrace_pure
      | apply growsTrace_ite
      | refine growsTrace_tryCatch ?_ (fun _ => ?_)
      | refine growsTrace_bind growsTrace_effRun (fun _ => ?_)
      | refine growsTrace_bind ?_ (fun _ => ?_)

theorem noThrow_syncSegment {env : Env} {d : String} {fk : Bool}
    (h : OkEnv env) : NoThrow (syncSegment env d fk) := by
  unfold syncSegment
  repeat
    first
      | exact noThrow_pure
      | apply noThrow_ite
      | apply noThrow_tryCatch
      | refine noThrow_bind (noThrow_effRun h) (fun _ => ?_)
      | refine noThrow_bind ?_ (fun _ => ?_)

theorem fsQuiet_syncSegment {env : Env} {d : String} {fk : Bool} :
    FsQuiet (syncSegment env d fk) := by
  unfold syncSegment
  repeat
    first
      | exact fsQuiet_pure
      | apply fsQuiet_ite
      | refine fsQuiet_tryCatch ?_ (fun _ => ?_)
      | refine fsQuiet_bind (fsQuiet_effRun rfl) (fun _ => ?_)
      | refine fsQuiet_bind ?_ (fun _ => ?_)

theorem tIdxQuiet_syncSegment {env : Env} {d : String} {fk : Bool} :
    TIdxQuiet (syncSegment env d fk) := by
  unfold syncSegment
  repeat
    first
      | exact tIdxQuiet_pure
      | apply tIdxQuiet_ite
      | refine tIdxQuiet_tryCatch ?_ (fun _ => ?_)
      | refine tIdxQuiet_bind tIdxQuiet_effRun (fun _ => ?_)
      | refine tIdxQuiet_bind ?_ (fun _ => ?_)

theorem growsTrace_branchSegment {env : Env} {d : String} :
    GrowsTrace (branchSegment env d) := by
  unfold branchSegment
  refine growsTrace_bind growsTrace_nowMs (fun _ => ?_)
  exact growsTrace_bind growsTrace_effRun (fun _ => growsTrace_pure)

theorem noThrow_branchSegment {env : Env} {d : String} (h : OkEnv env) :
    NoThrow (branchSegment env d) := by
  unfold branchSegment
  refine noThrow_bind noThrow_nowMs (fun _ => ?_)
  exact noThrow_bind (noThrow_effRun h) (fun _ => noThrow_pure)

theorem fsQuiet_branchSegment {env : Env} {d : String} :
    FsQuiet (branchSegment env d) := by
  unfold branchSegment
  refine fsQuiet_bind fsQuiet_nowMs (fun _ => ?_)
  exact fsQuiet_bind (fsQuiet_effRun rfl) (fun _ => fsQuiet_pure)

theorem growsTrace_applyFileChanges {env : Env} {d : String} :
    ∀ l, GrowsTrace (applyFileChanges env d l)
  | [] => growsTrace_pure
  | _ :: rest =>
    growsTrace_bind growsTrace_effRun (fun _ => growsTrace_applyFileChanges rest)

theorem noThrow_applyFileChanges {env : Env} {d : String} (h : OkEnv env) :
    ∀ l, NoThrow (applyFileChanges env d l)
  | [] => noThrow_pure
  | _ :: rest =>
    noThrow_bind (noThrow_effRun h) (fun _ => noThrow_applyFileChanges h rest)

theorem growsTrace_changesSegment {env : Env} {d : String} {l : List FileChange} :
    GrowsTrace (changesSegment env d l) := by
  unfold changesSegment defaultReadmeUpdate
  apply growsTrace_ite
  · exact growsTrace_applyFileChanges l
  · refine growsTrace_tryCatch ?_ (fun _ => ?_) <;>
      repeat
        first
          | exact growsTrace_pure
          | refine growsTrace_bind growsTrace_nowIso (fun _ => ?_)
          | refine growsTrace_bind growsTrace_effRun (fun _ => ?_)

theorem noThrow_changesSegment {env : Env} {d : String} {l : List FileChange}
    (h : OkEnv env) : NoThrow (changesSegment env d l) := by
  unfold changesSegment defaultReadmeUpdate
  apply noThrow_ite
  · exact noThrow_applyFileChanges h l
  · apply noThrow_tryCatch
    repeat
      first
        | exact noThrow_pure
        | refine noThrow_bind noThrow_nowIso (fun _ => ?_)
        | refine noThrow_bind (noThrow_effRun h) (fun _ => ?_)

theorem growsTrace_publishSegment {env : Env} {options : CreatePROptions}
    {o r sid a : String} {fk : Bool} {fu b : String} :
    GrowsTrace (publishSegment env options o r sid a fk fu b) := by
  unfold publishSegment
  repeat
    first
      | exact growsTrace_pure
      | refine growsTrace_bind growsTrace_nowIso (fun _ => ?_)
      | refine growsTrace_bind growsTrace_effRun (fun _ => ?_)

theorem noThrow_publishSegment {env : Env} {options : CreatePROptions}
    {o r sid a : String} {fk : Bool} {fu b : String} (h : OkEnv env) :
    NoThrow (publishSegment env options o r sid a fk fu b) := by
  unfold publishSegment
  repeat
    first
      | exact noThrow_pure
      | refine noThrow_bind noThrow_nowIso (fun _ => ?_)
      | refine noThrow_bind (noThrow_effRun h) (fun _ => ?_)

theorem fsQuiet_publishSegment {env : Env} {options : CreatePROptions}
    {o r sid a : String} {fk : Bool} {fu b : String} :
    FsQuiet (publishSegment env options o r sid a fk fu b) := by
  unfold publishSegment
  repeat
    first
      | exact fsQuiet_pure
      | refine fsQuiet_bind fsQuiet_nowIso (fun _ => ?_)
      | refine fsQuiet_bind (fsQuiet_effRun rfl) (fun _ => ?_)

/-- When `publishSegment` succeeds, the result is the success record built
from its arguments, with the PR URL extracted (first regex match or `pulls`
fallback) from the output of the `gh pr create` command — the fifth oracle
step of the segment. -/
theorem publishSegment_ok {env : Env} {options : CreatePROptions}
    {o r sid a : String} {fk : Bool} {fu b : String} {s s1 : RunState}
    {res : CreatePRResult}
    (h : publishSegment env options o r sid a fk fu b s = (s1, Except.ok res)) :
    ∃ prOut, env.oracle (s.oIdx + 4) = Outcome.ok prOut ∧
      res = { success := true
              data := some { prUrl := extractPrUrl prOut o r, branchName := b,
                             sandboxId := sid, forked := fk,
                             forkUrl := if fk then some fu else none }
              error := none } := by
  unfold publishSegment at h
  rw [bind_effRun_eq] at h
  rcases h0 : env.oracle s.oIdx with o0 | v0 <;> rw [h0] at h <;> dsimp only at h
  case thrown => simp at h
  rw [bind_effRun_eq] at h
  dsimp only at h
  rcases h1 : env.oracle (s.oIdx + 1) with o1 | v1 <;> rw [h1] at h <;> dsimp only at h
  case thrown => simp at h
  rw [bind_effRun_eq] at h
  dsimp only at h
  rcases h2 : env.oracle (s.oIdx + 1 + 1) with o2 | v2 <;> rw [h2] at h <;> dsimp only at h
  case thrown => simp at h
  rw [bind_effRun_eq] at h
  dsimp only at h
  rcases h3 : env.oracle (s.oIdx + 1 + 1 + 1) with o3 | v3 <;> rw [h3] at h <;> dsimp only at h
  case thrown => simp at h
  rw [bind_nowIso_eq] at h
  dsimp only at h
  rw [bind_effRun_eq] at h
  dsimp only at h
  rcases h4 : env.oracle (s.oIdx + 1 + 1 + 1 + 1) with o4 | v4 <;> rw [h4] at h <;> dsimp only at h
  case thrown => simp at h
  rw [bind_effRun_eq] at h
  dsimp only at h
  rcases h5 : env.oracle (s.oIdx + 1 + 1 + 1 + 1 + 1) with o5 | v5 <;> rw [h5] at h <;> dsimp only at h
  case thrown => simp at h
  simp only [M.pure, Prod.mk.injEq, Except.ok.injEq] at h
  refine ⟨o4, ?_, h.2.symm⟩
  rfl

/- ## Result invariant (claim C9) -/

/-- Structural invariant of every result: `data` is present exactly on
success, `error` exactly on failure, and inside `data` the fork URL is
present exactly when `forked` is set. -/
def resultInvariant (r : CreatePRResult) : Bool :=
  (r.data.isSome == r.success) && (r.error.isSome == !r.success) &&
  (match r.data with
   | none => true
   | some d => d.forkUrl.isSome == d.forked)

theorem resultInvariant_publish {env : Env} {options : CreatePROptions}
    {o r sid a : String} {fk : Bool} {fu b : String} :
    ResultOK (publishSegment env options o r sid a fk fu b)
      (fun res => resultInvariant res = true) := by
  intro s s1 res h
  rcases publishSegment_ok h with ⟨prOut, _, hres⟩
  subst hres
  cases fk <;> simp [resultInvariant]

theorem resultInvariant_mainFlow {env : Env} {options : CreatePROptions}
    {o r sid a w : String} {fk : Bool} {fu : String} :
    ResultOK (mainFlow env options o r sid a w fk fu)
      (fun res => resultInvariant res = true) := by
  unfold mainFlow
  refine resultOK_bindAny (fun _ => ?_)
  refine resultOK_bindAny (fun _ => ?_)
  refine resultOK_bindAny (fun b => ?_)
  refine resultOK_bindAny (fun _ => ?_)
  exact resultInvariant_publish

theorem resultInvariant_afterAuth {env : Env} {options : CreatePROptions}
    {o r sid a : String} :
    ResultOK (afterAuth env options o r sid a)
      (fun res => resultInvariant res = true) := by
  unfold afterAuth
  refine resultOK_bind
    (q := fun fr => ∀ res, fr = Sum.inl res → resultInvariant res = true) ?_ ?_
  · rcases forkResolve_cases env options.repoUrl o r a with ⟨w, fk, fu, heq⟩
    rw [heq]
    apply resultOK_pure
    intro res hres
    simp at hres
  · intro fr hfr
    rcases fr with res | w
    · exact resultOK_pure (hfr res rfl)
    · exact resultInvariant_mainFlow

theorem resultInvariant_body {env : Env} {options : CreatePROptions} :
    ResultOK (createGitHubPRBody env options)
      (fun res => resultInvariant res = true) := by
  unfold createGitHubPRBody
  rcases htok : env.githubToken with _ | tok
  · apply resultOK_pure
    simp [resultInvariant]
  · dsimp only
    apply resultOK_ite
    · apply resultOK_pure
      simp [resultInvariant]
    · rcases hp : parseGitHubUrl options.repoUrl with _ | ⟨ow, rp⟩
      · apply resultOK_pure
        simp [resultInvariant]
      · dsimp only
        exact resultOK_bindAny (fun auth => resultInvariant_afterAuth)

theorem resultInvariant_top {env : Env} {options : CreatePROptions} :
    ResultOK (createGitHubPRM env options)
      (fun res => resultInvariant res = true) := by
  unfold createGitHubPRM
  refine resultOK_tryCatch resultInvariant_body (fun e => ?_)
  apply resultOK_pure
  simp [resultInvariant]

/-- C9: every result of `createGitHubPR` has `data` present iff it
succeeded, `error` present iff it failed, and — inside `data` — `forkUrl`
present iff `forked` is set. -/
theorem createGitHubPR_result_invariant (env : Env) (options : CreatePROptions) :
    resultInvariant (createGitHubPR env options) = true := by
  unfold createGitHubPR runCreateGitHubPR
  rcases h2 : createGitHubPRM env options initState with ⟨sf, r⟩
  cases r with
  | ok res => exact resultInvariant_top initState sf res h2
  | error e => simp [resultInvariant]

/- ## Claim C1: the coarse error boundary -/

/-- An environment whose very first external operation throws `v`. -/
def throwingEnv (v : JSVal) : Env :=
  { githubToken := some "token"
    oracle := fun _ => Outcome.thrown v
    clock := fun _ => 0
    isoClock := fun _ => "1970-01-01T00:00:00.000Z" }

def opts0 : CreatePROptions := { repoUrl := "https://github.com/alice/repo" }

/-- C1 counterexample: when a step throws an `Error` whose message is the
empty string (as `new Error("")` has), the function returns
`success = false` with an **empty** error message, refuting the claim that
the message is always non-empty. -/
theorem createGitHubPR_empty_error_message :
    createGitHubPR (throwingEnv (JSVal.err "")) opts0 =
      { success := false, data := none, error := some "" } := rfl

/-- C1 (amended): whenever any step of the workflow throws, `createGitHubPR`
resolves normally (never propagates the exception) with `success = false`
and the error message of the boundary — the thrown `Error`'s message, or
`"Unknown error occurred"` for non-`Error` values; the message is non-empty
except when the thrown value is an `Error` with an empty message. -/
theorem createGitHubPR_error_boundary (env : Env) (options : CreatePROptions)
    (e : JSVal)
    (h : (createGitHubPRBody env options initState).2 = Except.error e) :
    (runCreateGitHubPR env options).2 = Except.ok (createGitHubPR env options) ∧
    createGitHubPR env options =
      { success := false, data := none, error := some (jsErrMsgOuter e) } ∧
    (e = JSVal.err "" ∨ jsErrMsgOuter e ≠ "") := by
  rcases hb : createGitHubPRBody env options initState with ⟨sb, rb⟩
  rw [hb] at h
  dsimp only at h
  subst h
  have hM : createGitHubPRM env options initState =
      (sb, Except.ok { success := false, data := none,
                       error := some (jsErrMsgOuter e) }) := by
    simp only [createGitHubPRM, M.tryCatch]
    rw [hb]
    rfl
  refine ⟨?_, ?_, ?_⟩
  · unfold createGitHubPR runCreateGitHubPR
    rw [hM]
  · unfold createGitHubPR runCreateGitHubPR
    rw [hM]
  · cases e with
    | err m =>
      by_cases hm : m = ""
      · exact Or.inl (by rw [hm])
      · exact Or.inr (by simpa [jsErrMsgOuter] using hm)
    | nonErr => exact Or.inr (by simp [jsErrMsgOuter])

/-- C1 witness: a concrete run where the first operation throws
`Error("resume failed")`. -/
theorem createGitHubPR_error_boundary_witness :
    createGitHubPR (throwingEnv (JSVal.err "resume failed")) opts0 =
      { success := false, data := none, error := some "resume failed" } :=
  (createGitHubPR_error_boundary (throwingEnv (JSVal.err "resume failed")) opts0
    (JSVal.err "resume failed") rfl).2.1

/- ## Claim C2: the fork-existence probe -/

def ghRepoViewL : List Char :=
  ['g', 'h', ' ', 'r', 'e', 'p', 'o', ' ', 'v', 'i', 'e', 'w', ' ']

/-- Is this effect a `gh repo view ...` command? -/
def isGhRepoViewCmd : Effect → Bool
  | Effect.runCommand c => ghRepoViewL.isPrefixOf c.data
  | _ => false

/-- Trace predicate: not a view-repository probe. -/
def noProbeP (e : Effect) : Prop := isGhRepoViewCmd e = false

theorem noProbe_authSegment {env : Env} {tok : String} :
    TraceAll noProbeP (authSegment env tok) := by
  unfold authSegment
  repeat
    first
      | exact traceAll_pure
      | refine traceAll_bind (traceAll_effRun rfl) (fun _ => ?_)

theorem noProbe_forkResolve {env : Env} {u o r a : String} :
    TraceAll noProbeP (forkResolve env u o r a) := by
  rcases forkResolve_cases env u o r a with ⟨w, fk, fu, heq⟩
  rw [heq]
  exact traceAll_pure

theorem noProbe_cloneSegment {env : Env} {ru wu d : String} {fk : Bool} :
    TraceAll noProbeP (cloneSegment env ru wu d fk) := by
  unfold cloneSegment
  repeat
    first
      | exact traceAll_pure
      | apply traceAll_ite
      | refine traceAll_tryCatch ?_ (fun _ => ?_)
      | refine traceAll_bind (traceAll_effRun rfl) (fun _ => ?_)
      | refine traceAll_bind ?_ (fun _ => ?_)

theorem noProbe_syncSegment {env : Env} {d : String} {fk : Bool} :
    TraceAll noProbeP (syncSegment env d fk) := by
  unfold syncSegment
  repeat
    first
      | exact traceAll_pure
      | apply traceAll_ite
      | refine traceAll_tryCatch ?_ (fun _ => ?_)
      | refine traceAll_bind (traceAll_effRun rfl) (fun _ => ?_)
      | refine traceAll_bind ?_ (fun _ => ?_)

theorem noProbe_branchSegment {env : Env} {d : String} :
    TraceAll noProbeP (branchSegment env d) := by
  unfold branchSegment
  refine traceAll_bind traceAll_nowMs (fun _ => ?_)
  exact traceAll_bind (traceAll_effRun rfl) (fun _ => traceAll_pure)

theorem noProbe_applyFileChanges {env : Env} {d : String} :
    ∀ l, TraceAll noProbeP (applyFileChanges env d l)
  | [] => traceAll_pure
  | _ :: rest =>
    traceAll_bind (traceAll_effRun rfl) (fun _ => noProbe_applyFileChanges rest)

theorem noProbe_changesSegment {env : Env} {d : String} {l : List FileChange} :
    TraceAll noProbeP (changesSegment env d l) := by
  unfold changesSegment defaultReadmeUpdate
  apply traceAll_ite
  · exact noProbe_applyFileChanges l
  · refine traceAll_tryCatch ?_ (fun _ => ?_) <;>
      repeat
        first
          | exact traceAll_pure
          | refine traceAll_bind traceAll_nowIso (fun _ => ?_)
          | refine traceAll_bind (traceAll_effRun rfl) (fun _ => ?_)

theorem noProbe_publishSegment {env : Env} {options : CreatePROptions}
    {o r sid a : String} {fk : Bool} {fu b : String} :
    TraceAll noProbeP (publishSegment env options o r sid a fk fu b) := by
  unfold publishSegment
  refine traceAll_bind (traceAll_effRun rfl) (fun _ => ?_)
  refine traceAll_bind (traceAll_effRun rfl) (fun _ => ?_)
  refine traceAll_bind (traceAll_effRun rfl) (fun _ => ?_)
  refine traceAll_bind (traceAll_effRun rfl) (fun _ => ?_)
  refine traceAll_bind traceAll_nowIso (fun _ => ?_)
  refine traceAll_bind (traceAll_effRun ?_) (fun _ => ?_)
  · show noProbeP _
    unfold noProbeP isGhRepoViewCmd
    cases fk <;> rfl
  · exact traceAll_bind (traceAll_effRun rfl) (fun _ => traceAll_pure)

theorem noProbe_top {env : Env} {options : CreatePROptions} :
    TraceAll noProbeP (createGitHubPRM env options) := by
  unfold createGitHubPRM
  refine traceAll_tryCatch ?_ (fun e => traceAll_pure)
  unfold createGitHubPRBody
  rcases htok : env.githubToken with _ | tok
  · exact traceAll_pure
  · dsimp only
    apply traceAll_ite
    · exact traceAll_pure
    · rcases hp : parseGitHubUrl options.repoUrl with _ | ⟨ow, rp⟩
      · exact traceAll_pure
      · dsimp only
        refine traceAll_bind noProbe_authSegment (fun auth => ?_)
        unfold afterAuth
        refine traceAll_bind noProbe_forkResolve (fun fr => ?_)
        rcases fr with res | w
        · exact traceAll_pure
        · unfold mainFlow
          refine traceAll_bind noProbe_cloneSegment (fun _ => ?_)
          refine traceAll_bind noProbe_syncSegment (fun _ => ?_)
          refine traceAll_bind noProbe_branchSegment (fun _ => ?_)
          refine traceAll_bind noProbe_changesSegment (fun _ => ?_)
          exact noProbe_publishSegment

/-- A fully succeeding environment in which the authenticated user is
`bob` (different from the `alice` of `opts0`'s URL), the repository
directory does not exist yet, and every command succeeds. -/
def forkEnv : Env :=
  { githubToken := some "token"
    oracle := fun i =>
      if i = 6 then Outcome.ok "bob"
      else if i = 7 then Outcome.ok "not_exists"
      else Outcome.ok "wmwx2g"
    clock := fun _ => 42
    isoClock := fun _ => "2026-02-02T00:00:00.000Z" }

/-- C2 counterexample: with an authenticated user (`bob`) different from
the parsed owner (`alice`), the run completes successfully as a fork run
without ever issuing a `gh repo view` command — the probe the claim
describes never executes. -/
theorem forkProbe_counterexample :
    (createGitHubPR forkEnv opts0).success = true ∧
    (createGitHubPR forkEnv opts0).data.map PRData.forked = some true ∧
    (traceOf forkEnv opts0).all (fun e => !isGhRepoViewCmd e) = true := by
  decide

/-- C2 (amended): the view-repository probe is dead code — no run of
`createGitHubPR` ever issues a `gh repo view` command — because when the
authenticated user differs from the owner the guarded block cannot throw,
so the workflow unconditionally assumes the fork at
`github.com/<authedUser>/<repo>` and no combined fork error is produced
from that branch. -/
theorem forkProbe_never_runs :
    (∀ env options, ∀ e ∈ traceOf env options, isGhRepoViewCmd e = false) ∧
    (∀ env repoUrl owner repoName authedUser, ¬ owner = authedUser →
      forkResolve env repoUrl owner repoName authedUser =
        M.pure (Sum.inr ("https://github.com/" ++ authedUser ++ "/" ++ repoName, true,
                         "https://github.com/" ++ authedUser ++ "/" ++ repoName))) := by
  constructor
  · intro env options e he
    refine noProbe_top initState ?_ e he
    intro e2 h2
    exact absurd h2 (List.not_mem_nil e2)
  · intro env repoUrl owner repoName authedUser h
    exact forkResolve_fork h

/-- C2 witness: the amended statement applied at concrete inputs, with the
inequality hypothesis discharged. -/
theorem forkProbe_never_runs_witness :
    forkResolve forkEnv "https://github.com/alice/repo" "alice" "repo" "bob" =
      M.pure (Sum.inr ("https://github.com/bob/repo", true,
                       "https://github.com/bob/repo")) :=
  forkProbe_never_runs.2 forkEnv "https://github.com/alice/repo" "alice" "repo" "bob"
    (by decide)

theorem takeWhile_notSlash_all {l : List Char} (h : ∀ c ∈ l, c ≠ '/') :
    l.takeWhile (fun c => c ≠ '/') = l := by
  induction l with
  | nil => rfl
  | cons a as ih =>
    rw [List.takeWhile_cons_of_pos (p := fun c => decide (c ≠ '/'))
          (decide_eq_true (h a (List.mem_cons_self a as))),
        ih (fun c hc => h c (List.mem_cons_of_mem a hc))]

theorem dropWhile_notSlash_all {l : List Char} (h : ∀ c ∈ l, c ≠ '/') :
    l.dropWhile (fun c => c ≠ '/') = [] := by
  induction l with
  | nil => rfl
  | cons a as ih =>
    rw [List.dropWhile_cons_of_pos (p := fun c => decide (c ≠ '/'))
          (decide_eq_true (h a (List.mem_cons_self a as))),
        ih (fun c hc => h c (List.mem_cons_of_mem a hc))]

theorem takeWhile_notSlash_append {l1 l2 : List Char} (h : ∀ c ∈ l1, c ≠ '/') :
    (l1 ++ '/' :: l2).takeWhile (fun c => c ≠ '/') = l1 := by
  induction l1 with
  | nil =>
    rw [List.nil_append, List.takeWhile_cons_of_neg (by decide)]
  | cons a as ih =>
    rw [List.cons_append,
        List.takeWhile_cons_of_pos (p := fun c => decide (c ≠ '/'))
          (decide_eq_true (h a (List.mem_cons_self a as))),
        ih (fun c hc => h c (List.mem_cons_of_mem a hc))]

theorem dropWhile_notSlash_append {l1 l2 : List Char} (h : ∀ c ∈ l1, c ≠ '/') :
    (l1 ++ '/' :: l2).dropWhile (fun c => c ≠ '/') = '/' :: l2 := by
  induction l1 with
  | nil =>
    rw [List.nil_append, List.dropWhile_cons_of_neg (by decide)]
  | cons a as ih =>
    rw [List.cons_append,
        List.dropWhile_cons_of_pos (p := fun c => decide (c ≠ '/'))
          (decide_eq_true (h a (List.mem_cons_self a as))),
        ih (fun c hc => h c (List.mem_cons_of_mem a hc))]

/-- Greedy success of the tail pattern on `<owner>/<rest>` when `rest`
contains no slash: both groups are the maximal slash-free runs. -/
theorem matchTail_canonical {o rg : List Char} (ho : o ≠ []) (hrg : rg ≠ [])
    (ho2 : ∀ c ∈ o, c ≠ '/') (hrg2 : ∀ c ∈ rg, c ≠ '/') :
    matchTail (o ++ '/' :: rg) = some (o, rg) := by
  simp only [matchTail, takeWhile_notSlash_append ho2, dropWhile_notSlash_append ho2,
             takeWhile_notSlash_all hrg2, dropWhile_notSlash_all hrg2]
  rw [if_neg ho, if_neg hrg]

theorem isPrefixOf_append_self {α : Type} [BEq α] [LawfulBEq α] (l m : List α) :
    l.isPrefixOf (l ++ m) = true := by
  induction l with
  | nil => simp
  | cons a as ih => simp [List.isPrefixOf_cons₂, ih]

theorem scanRepoMatch_canonical {o rg : List Char} (ho : o ≠ []) (hrg : rg ≠ [])
    (ho2 : ∀ c ∈ o, c ≠ '/') (hrg2 : ∀ c ∈ rg, c ≠ '/') :
    scanRepoMatch (httpsGhL ++ o ++ '/' :: rg) = some (o, rg) := by
  have hmt := matchTail_canonical ho hrg ho2 hrg2
  have hstep : ∀ (c : Char) (l : List Char), repoMatchAt (c :: l) = none →
      scanRepoMatch (c :: l) = scanRepoMatch l := by
    intro c l h
    simp [scanRepoMatch, h]
  have hmiss : ∀ (c : Char) (l : List Char), (ghHostL.isPrefixOf (c :: l)) = false →
      repoMatchAt (c :: l) = none := by
    intro c l h
    simp [repoMatchAt, h]
  show scanRepoMatch ('h' :: 't' :: 't' :: 'p' :: 's' :: ':' :: '/' :: '/' :: 'g' :: 'i' :: 't' :: 'h' :: 'u' :: 'b' :: '.' :: 'c' :: 'o' :: 'm' :: '/' :: (o ++ '/' :: rg)) = some (o, rg)
  rw [hstep 'h' _ (hmiss _ _ (by simp [ghHostL, List.isPrefixOf_cons₂])),
      hstep 't' _ (hmiss _ _ (by simp [ghHostL, List.isPrefixOf_cons₂])),
      hstep 't' _ (hmiss _ _ (by simp [ghHostL, List.isPrefixOf_cons₂])),
      hstep 'p' _ (hmiss _ _ (by simp [ghHostL, List.isPrefixOf_cons₂])),
      hstep 's' _ (hmiss _ _ (by simp [ghHostL, List.isPrefixOf_cons₂])),
      hstep ':' _ (hmiss _ _ (by simp [ghHostL, List.isPrefixOf_cons₂])),
      hstep '/' _ (hmiss _ _ (by simp [ghHostL, List.isPrefixOf_cons₂])),
      hstep '/' _ (hmiss _ _ (by simp [ghHostL, List.isPrefixOf_cons₂]))]
  have hcond : ghHostL.isPrefixOf ('g' :: 'i' :: 't' :: 'h' :: 'u' :: 'b' :: '.' :: 'c' :: 'o' :: 'm' :: '/' ::(o ++ '/' :: rg)) = true := by
    simp [ghHostL, List.isPrefixOf_cons₂]
  have hat : repoMatchAt ('g' :: 'i' :: 't' :: 'h' :: 'u' :: 'b' :: '.' :: 'c' :: 'o' :: 'm' :: '/' ::(o ++ '/' :: rg)) =
      matchTail (o ++ '/' :: rg) := by
    simp only [repoMatchAt, hcond, if_true]
    rfl
  simp [scanRepoMatch, hat, hmt]

theorem data_ne_nil_of_ne_empty {s : String} (h : s ≠ "") : s.data ≠ [] := by
  intro hd
  exact h (String.ext (by rw [hd]))

theorem parseGitHubUrl_canonical_bare {owner repo : String} (ho : owner ≠ "") (hr : repo ≠ "")
    (ho2 : ∀ c ∈ owner.data, c ≠ '/') (hr2 : ∀ c ∈ repo.data, c ≠ '/') :
    parseGitHubUrl ("https://github.com/" ++ owner ++ "/" ++ repo) = some (owner, repo) := by
  unfold parseGitHubUrl
  have hdata : ("https://github.com/" ++ owner ++ "/" ++ repo).data =
      httpsGhL ++ owner.data ++ '/' :: repo.data := by
    simp [String.data_append, httpsGhL]
  rw [hdata, scanRepoMatch_canonical (data_ne_nil_of_ne_empty ho)
        (data_ne_nil_of_ne_empty hr) ho2 hr2]
  rfl

theorem parseGitHubUrl_canonical_git {owner repo : String} (ho : owner ≠ "") (hr : repo ≠ "")
    (ho2 : ∀ c ∈ owner.data, c ≠ '/') (hr2 : ∀ c ∈ repo.data, c ≠ '/') :
    parseGitHubUrl ("https://github.com/" ++ owner ++ "/" ++ repo ++ ".git") =
      some (owner, ⟨repo.data ++ gitSuffixL⟩) := by
  unfold parseGitHubUrl
  have hdata : ("https://github.com/" ++ owner ++ "/" ++ repo ++ ".git").data =
      httpsGhL ++ owner.data ++ '/' :: (repo.data ++ gitSuffixL) := by
    simp [String.data_append, httpsGhL, gitSuffixL]
  have hrg : repo.data ++ gitSuffixL ≠ [] := by
    simp [gitSuffixL]
  have hrg2 : ∀ c ∈ repo.data ++ gitSuffixL, c ≠ '/' := by
    intro c hc
    rcases List.mem_append.mp hc with h | h
    · exact hr2 c h
    · simp [gitSuffixL] at h
      rcases h with rfl | rfl | rfl | rfl <;> decide
  rw [hdata, scanRepoMatch_canonical (data_ne_nil_of_ne_empty ho) hrg ho2 hrg2]
  rfl

theorem stripDotGit_append_git (s : String) : stripDotGit ⟨s.data ++ gitSuffixL⟩ = s := by
  unfold stripDotGit
  have hsuf : gitSuffixL.isSuffixOf (String.mk (s.data ++ gitSuffixL)).data = true := by
    show gitSuffixL.isSuffixOf (s.data ++ gitSuffixL) = true
    unfold List.isSuffixOf
    rw [List.reverse_append]
    exact isPrefixOf_append_self _ _
  rw [if_pos hsuf]
  have hlen : (String.mk (s.data ++ gitSuffixL)).data.length - 4 = s.data.length := by
    show (s.data ++ gitSuffixL).length - 4 = s.data.length
    simp [gitSuffixL]
  rw [hlen]
  show String.mk ((s.data ++ gitSuffixL).take s.data.length) = s
  rw [List.take_left' rfl]

/-- The URL shape the specification names,
`https://github.com/<owner>/<repo>[.git]` — a spec-side definition used to
compare the actual parser against the spec's words. -/
def specUrlShape (s : String) : Bool :=
  ("https://github.com/".isPrefixOf s) &&
  (match (s.drop 19).splitOn "/" with
   | [o, r] => (!o.isEmpty) && (!r.isEmpty) && (r != ".git")
   | _ => false)

/-- A failed parse returns the URL failure before any external effect. -/
theorem parseFail_early {env : Env} {options : CreatePROptions}
    (h : parseGitHubUrl options.repoUrl = none) :
    (createGitHubPR env options).success = false ∧
    (createGitHubPR env options).data = none ∧
    traceOf env options = [] := by
  unfold createGitHubPR traceOf runCreateGitHubPR createGitHubPRM M.tryCatch createGitHubPRBody
  rcases htok : env.githubToken with _ | tok
  · exact ⟨rfl, rfl, rfl⟩
  · dsimp only
    by_cases ht : tok = ""
    · rw [if_pos ht]
      exact ⟨rfl, rfl, rfl⟩
    · rw [if_neg ht, h]
      exact ⟨rfl, rfl, rfl⟩

/-- Environment for runs on the `a/b` repository: user `a` owns it, the
directory is absent, everything succeeds. -/
def plainEnv : Env :=
  { githubToken := some "token"
    oracle := fun i =>
      if i = 6 then Outcome.ok "a"
      else if i = 7 then Outcome.ok "not_exists"
      else Outcome.ok "wmwx2g"
    clock := fun _ => 7
    isoClock := fun _ => "2026-03-03T00:00:00.000Z" }

def schemelessOpts : CreatePROptions := { repoUrl := "github.com/a/b" }

/-- C3 counterexample: `github.com/a/b` does not match the spec's shape
`https://github.com/<owner>/<repo>[.git]`, yet the unanchored regex accepts
it, the run proceeds to external operations and succeeds. -/
theorem url_rejection_counterexample :
    specUrlShape "github.com/a/b" = false ∧
    parseGitHubUrl "github.com/a/b" = some ("a", "b") ∧
    (createGitHubPR plainEnv schemelessOpts).success = true ∧
    traceOf plainEnv schemelessOpts ≠ [] := by decide

/-- C3 (amended): for every URL of the shape
`https://github.com/<owner>/<repo>[.git]` the parser extracts the owner and
repository groups, which the body lower-cases with one trailing `.git`
stripped; and whenever the regex fails to match, `createGitHubPR` fails
before issuing any external operation.  (The regex is unanchored at the
front, so it also accepts strings that merely end with
`github.com/<owner>/<repo>[.git][/]`, e.g. without the `https://` scheme —
rejection is by regex failure, not by the spec's shape.) -/
theorem createGitHubPR_url_parsing (owner repo : String) (env : Env)
    (options : CreatePROptions)
    (ho : owner ≠ "") (hr : repo ≠ "")
    (ho2 : ∀ c ∈ owner.data, c ≠ '/') (hr2 : ∀ c ∈ repo.data, c ≠ '/')
    (hfail : parseGitHubUrl options.repoUrl = none) :
    ((parseGitHubUrl ("https://github.com/" ++ owner ++ "/" ++ repo)).map
        (fun p => (normalizeRepoComponent p.1, normalizeRepoComponent p.2)) =
      some (normalizeRepoComponent owner, normalizeRepoComponent repo)) ∧
    ((parseGitHubUrl ("https://github.com/" ++ owner ++ "/" ++ repo ++ ".git")).map
        (fun p => (normalizeRepoComponent p.1, normalizeRepoComponent p.2)) =
      some (normalizeRepoComponent owner, jsToLower repo)) ∧
    ((createGitHubPR env options).success = false ∧
     (createGitHubPR env options).data = none ∧
     traceOf env options = []) := by
  refine ⟨?_, ?_, parseFail_early hfail⟩
  · rw [parseGitHubUrl_canonical_bare ho hr ho2 hr2]
    rfl
  · rw [parseGitHubUrl_canonical_git ho hr ho2 hr2]
    show some (normalizeRepoComponent owner, normalizeRepoComponent ⟨repo.data ++ gitSuffixL⟩) =
      some (normalizeRepoComponent owner, jsToLower repo)
    rw [show normalizeRepoComponent ⟨repo.data ++ gitSuffixL⟩ = jsToLower repo from by
      unfold normalizeRepoComponent
      rw [stripDotGit_append_git]]

/-- C3 witness: the amended statement applied at `Alice`/`Repo` and a
non-matching URL, all hypotheses discharged concretely. -/
theorem createGitHubPR_url_parsing_witness :
    ((parseGitHubUrl ("https://github.com/" ++ "Alice" ++ "/" ++ "Repo")).map
        (fun p => (normalizeRepoComponent p.1, normalizeRepoComponent p.2)) =
      some (normalizeRepoComponent "Alice", normalizeRepoComponent "Repo")) ∧
    normalizeRepoComponent "Alice" = "alice" ∧
    (createGitHubPR plainEnv { repoUrl := "nonsense" }).success = false :=
  ⟨(createGitHubPR_url_parsing "Alice" "Repo" plainEnv { repoUrl := "nonsense" }
      (by decide) (by decide) (by decide) (by decide) (by decide)).1,
   by decide,
   (createGitHubPR_url_parsing "Alice" "Repo" plainEnv { repoUrl := "nonsense" }
      (by decide) (by decide) (by decide) (by decide) (by decide)).2.2.1⟩

/- ## Claim C10: the fixed sandbox -/

theorem M.bind_assoc {α β γ : Type} (x : M α) (g : α → M β) (k : β → M γ) :
    M.bind (M.bind x g) k = M.bind x (fun a => M.bind (g a) k) := by
  funext s
  unfold M.bind
  rcases hx : x s with ⟨s1, r⟩
  cases r <;> rfl

theorem growsTrace_mainFlow {env : Env} {options : CreatePROptions}
    {o r sid a w : String} {fk : Bool} {fu : String} :
    GrowsTrace (mainFlow env options o r sid a w fk fu) := by
  unfold mainFlow
  refine growsTrace_bind growsTrace_cloneSegment (fun _ => ?_)
  refine growsTrace_bind growsTrace_syncSegment (fun _ => ?_)
  refine growsTrace_bind growsTrace_branchSegment (fun b => ?_)
  refine growsTrace_bind growsTrace_changesSegment (fun _ => ?_)
  exact growsTrace_publishSegment

theorem growsTrace_afterAuth {env : Env} {options : CreatePROptions}
    {o r sid a : String} :
    GrowsTrace (afterAuth env options o r sid a) := by
  unfold afterAuth
  refine growsTrace_bind growsTrace_forkResolve (fun fr => ?_)
  rcases fr with res | w
  · exact growsTrace_pure
  · exact growsTrace_mainFlow

theorem sandboxId_publish {env : Env} {options : CreatePROptions}
    {o r sid a : String} {fk : Bool} {fu b : String} :
    ResultOK (publishSegment env options o r sid a fk fu b)
      (fun res => res.data.all (fun d => d.sandboxId == sid) = true) := by
  intro s s1 res h
  rcases publishSegment_ok h with ⟨prOut, _, hres⟩
  subst hres
  simp [Option.all]

theorem sandboxId_afterAuth {env : Env} {options : CreatePROptions}
    {o r sid a : String} :
    ResultOK (afterAuth env options o r sid a)
      (fun res => res.data.all (fun d => d.sandboxId == sid) = true) := by
  unfold afterAuth
  refine resultOK_bind
    (q := fun fr => ∀ res, fr = Sum.inl res → res.data = none) ?_ ?_
  · rcases forkResolve_cases env options.repoUrl o r a with ⟨w, fk, fu, heq⟩
    rw [heq]
    apply resultOK_pure
    intro res hres
    simp at hres
  · intro fr hfr
    rcases fr with res | w
    · apply resultOK_pure
      rw [hfr res rfl]
      rfl
    · unfold mainFlow
      refine resultOK_bindAny (fun _ => ?_)
      refine resultOK_bindAny (fun _ => ?_)
      refine resultOK_bindAny (fun b => ?_)
      refine resultOK_bindAny (fun _ => ?_)
      exact sandboxId_publish

/-- The error boundary does not alter the state of the body. -/
theorem tryCatch_pure_handler_state {α : Type} {x : M α} {h : JSVal → α} {s : RunState} :
    (M.tryCatch x (fun e => M.pure (h e)) s).1 = (x s).1 := by
  unfold M.tryCatch
  rcases hx : x s with ⟨s1, r⟩
  cases r <;> rfl

/-- C10: once the credential and URL checks pass, the workflow's first
external operation is resuming the fixed sandbox `wmwx2g` (never creating
one), and — under the SDK contract that resuming `wmwx2g` yields the
sandbox with that id — every success result carries `sandboxId = "wmwx2g"`. -/
theorem createGitHubPR_fixed_sandbox (env : Env) (options : CreatePROptions)
    (tok ow rp : String) (htok : env.githubToken = some tok) (ht : tok ≠ "")
    (hparse : parseGitHubUrl options.repoUrl = some (ow, rp))
    (hres : env.oracle 0 = Outcome.ok "wmwx2g") :
    (∃ l, traceOf env options = Effect.resume "wmwx2g" :: l) ∧
    (createGitHubPR env options).data.all (fun d => d.sandboxId == "wmwx2g") = true := by
  have hbody : createGitHubPRBody env options =
      M.bind (authSegment env tok)
        (fun auth => afterAuth env options (normalizeRepoComponent ow)
          (normalizeRepoComponent rp) auth.1 (jsToLower (jsTrim auth.2))) := by
    unfold createGitHubPRBody
    rw [htok]
    dsimp only
    rw [if_neg ht, hparse]
  constructor
  · unfold traceOf runCreateGitHubPR createGitHubPRM
    rw [tryCatch_pure_handler_state, hbody]
    unfold authSegment
    rw [M.bind_assoc, bind_effRun_eq]
    rw [show initState.oIdx = 0 from rfl, hres]
    dsimp only
    have hg : GrowsTrace (M.bind
        (M.bind (effRun env Effect.connect) fun _ =>
         M.bind (effRun env (Effect.runCommand ("echo \"" ++ tok ++ "\" | gh auth login --with-token"))) fun _ =>
         M.bind (effRun env (Effect.runCommand "gh auth setup-git")) fun _ =>
         M.bind (effRun env (Effect.runCommand "git config --global user.name 'code0'")) fun _ =>
         M.bind (effRun env (Effect.runCommand "git config --global user.email 'anthony@crafterstation.com'")) fun _ =>
         M.bind (effRun env (Effect.runCommand "gh api user --jq '.login'")) fun userInfo =>
         M.pure ("wmwx2g", userInfo))
        (fun auth => afterAuth env options (normalizeRepoComponent ow)
          (normalizeRepoComponent rp) auth.1 (jsToLower (jsTrim auth.2)))) := by
      repeat
        first
          | exact growsTrace_afterAuth
          | exact growsTrace_pure
          | refine growsTrace_bind growsTrace_effRun (fun _ => ?_)
          | refine growsTrace_bind ?_ (fun _ => ?_)
    obtain ⟨l, hl⟩ := hg ⟨0 + 1, initState.tIdx, initState.trace ++ [Effect.resume "wmwx2g"]⟩
    refine ⟨l, ?_⟩
    rw [hl]
    rfl
  · unfold createGitHubPR runCreateGitHubPR createGitHubPRM M.tryCatch
    rw [hbody]
    unfold M.bind
    rcases ha : authSegment env tok initState with ⟨s1, r1⟩
    cases r1 with
    | error e => rfl
    | ok auth =>
      dsimp only
      have hchar := authSegment_ok ha
      have hsid : auth.1 = "wmwx2g" := by
        have h0 := hchar.1
        rw [show initState.oIdx = 0 from rfl] at h0
        have h1 := h0.symm.trans hres
        simpa using h1
      rcases hr2 : afterAuth env options (normalizeRepoComponent ow)
          (normalizeRepoComponent rp) auth.1 (jsToLower (jsTrim auth.2)) s1 with ⟨s2, r2⟩
      cases r2 with
      | error e => rfl
      | ok res =>
        dsimp only
        have hall := sandboxId_afterAuth s1 s2 res hr2
        rw [← hsid]
        exact hall

/-- C10 witness: a fully concrete successful resume run. -/
theorem createGitHubPR_fixed_sandbox_witness :
    (∃ l, traceOf plainEnv opts0 = Effect.resume "wmwx2g" :: l) ∧
    (createGitHubPR plainEnv opts0).data.all (fun d => d.sandboxId == "wmwx2g") = true :=
  createGitHubPR_fixed_sandbox plainEnv opts0 "token" "alice" "repo" rfl
    (by decide) (by decide) rfl

/- ## Claim C7: branch names -/

/-- `branchSegment` only ever returns a `code0-<integer>` name. -/
theorem branchSegment_shape {env : Env} {d : String} :
    ResultOK (branchSegment env d) (fun b => ∃ n, b = mkBranchName n) := by
  unfold branchSegment
  refine resultOK_bindAny (fun t => ?_)
  refine resultOK_bindAny (fun _ => ?_)
  exact resultOK_pure ⟨t, rfl⟩

/-- On success, the branch name is built from the clock value at the
segment's entry tick. -/
theorem branchSegment_ok {env : Env} {d : String} {s s3 : RunState} {b : String}
    (h : branchSegment env d s = (s3, Except.ok b)) :
    b = mkBranchName (env.clock s.tIdx) := by
  unfold branchSegment at h
  rw [bind_nowMs_eq] at h
  rw [bind_effRun_eq] at h
  rcases ho : env.oracle s.oIdx with o | v <;> rw [ho] at h <;> dsimp only at h
  · simp only [M.pure, Prod.mk.injEq, Except.ok.injEq] at h
    exact h.2.symm
  · simp at h

/-- On success, the result's branch name is `publishSegment`'s argument. -/
theorem publish_branchName {env : Env} {options : CreatePROptions}
    {o r sid a : String} {fk : Bool} {fu b : String} :
    ResultOK (publishSegment env options o r sid a fk fu b)
      (fun res => ∀ dd ∈ res.data, dd.branchName = b) := by
  intro s s1 res h
  rcases publishSegment_ok h with ⟨prOut, _, hres⟩
  subst hres
  intro dd hdd
  simp only [Option.mem_def, Option.some.injEq] at hdd
  rw [← hdd]

/-- Any `data` in any result carries a branch name of the shape
`code0-<integer>`. -/
theorem branchName_pattern (env : Env) (options : CreatePROptions) :
    ResultOK (createGitHubPRM env options)
      (fun res => ∀ dd ∈ res.data, ∃ n, dd.branchName = mkBranchName n) := by
  unfold createGitHubPRM
  refine resultOK_tryCatch ?_ (fun e => resultOK_pure (by simp))
  unfold createGitHubPRBody
  rcases htok : env.githubToken with _ | tok
  · exact resultOK_pure (by simp)
  · dsimp only
    apply resultOK_ite
    · exact resultOK_pure (by simp)
    · rcases hp : parseGitHubUrl options.repoUrl with _ | ⟨ow, rp⟩
      · exact resultOK_pure (by simp)
      · dsimp only
        refine resultOK_bindAny (fun auth => ?_)
        unfold afterAuth
        refine resultOK_bind
          (q := fun fr => ∀ res, fr = Sum.inl res → res.data = none) ?_ ?_
        · rcases forkResolve_cases env options.repoUrl (normalizeRepoComponent ow)
            (normalizeRepoComponent rp) (jsToLower (jsTrim auth.2)) with ⟨w, fk, fu, heq⟩
          rw [heq]
          apply resultOK_pure
          intro res hres
          simp at hres
        · intro fr hfr
          rcases fr with res | w
          · apply resultOK_pure
            rw [hfr res rfl]
            simp
          · unfold mainFlow
            refine resultOK_bindAny (fun _ => ?_)
            refine resultOK_bindAny (fun _ => ?_)
            refine resultOK_bind branchSegment_shape (fun b hb => ?_)
            refine resultOK_bindAny (fun _ => ?_)
            intro s s1 res h
            intro dd hdd
            rcases hb with ⟨n, hn⟩
            exact ⟨n, by rw [publish_branchName s s1 res h dd hdd, hn]⟩

/-- Through `mainFlow`, a success result's branch name is built from the
clock value at entry (the first clock read of the whole run). -/
theorem branch_mainFlow_clock {env : Env} {options : CreatePROptions}
    {o r sid a w : String} {fk : Bool} {fu : String} {s s2 : RunState}
    {res : CreatePRResult}
    (h : mainFlow env options o r sid a w fk fu s = (s2, Except.ok res)) :
    ∀ dd ∈ res.data, dd.branchName = mkBranchName (env.clock s.tIdx) := by
  unfold mainFlow M.bind at h
  rcases hc : cloneSegment env options.repoUrl w r fk s with ⟨sA, rA⟩
  rw [hc] at h
  cases rA with
  | error e => simp at h
  | ok uA =>
    dsimp only at h
    rcases hs : syncSegment env r fk sA with ⟨sB, rB⟩
    rw [hs] at h
    cases rB with
    | error e => simp at h
    | ok uB =>
      dsimp only at h
      rcases hbr : branchSegment env r sB with ⟨sC, rC⟩
      rw [hbr] at h
      cases rC with
      | error e => simp at h
      | ok b =>
        dsimp only at h
        rcases hch : changesSegment env r (options.fileChanges.getD []) sC with ⟨sD, rD⟩
        rw [hch] at h
        cases rD with
        | error e => simp at h
        | ok uD =>
          dsimp only at h
          have hb := branchSegment_ok hbr
          have htA : sA.tIdx = s.tIdx := by
            have h2 := @tIdxQuiet_cloneSegment env options.repoUrl w r fk s
            rw [hc] at h2
            exact h2
          have htB : sB.tIdx = sA.tIdx := by
            have h2 := @tIdxQuiet_syncSegment env r fk sA
            rw [hs] at h2
            exact h2
          intro dd hdd
          rw [publish_branchName sD s2 res h dd hdd, hb, htB, htA]

/-- Same, through `afterAuth` (the fork resolution issues no clock read). -/
theorem branch_afterAuth_clock {env : Env} {options : CreatePROptions}
    {o r sid a : String} {s s2 : RunState} {res : CreatePRResult}
    (h : afterAuth env options o r sid a s = (s2, Except.ok res)) :
    ∀ dd ∈ res.data, dd.branchName = mkBranchName (env.clock s.tIdx) := by
  unfold afterAuth M.bind at h
  rcases forkResolve_cases env options.repoUrl o r a with ⟨w, fk, fu, heq⟩
  rw [heq] at h
  dsimp only [M.pure] at h
  exact branch_mainFlow_clock h

/-- In every result of `createGitHubPR`, the branch name is
`code0-` followed by the first `Date.now()` reading of the run. -/
theorem branchName_clock0 {env : Env} {options : CreatePROptions} {d : PRData}
    (h : (createGitHubPR env options).data = some d) :
    d.branchName = mkBranchName (env.clock 0) := by
  unfold createGitHubPR runCreateGitHubPR createGitHubPRM M.tryCatch createGitHubPRBody at h
  rcases htok : env.githubToken with _ | tok <;> rw [htok] at h
  · simp [M.pure] at h
  · dsimp only at h
    by_cases ht : tok = ""
    · rw [if_pos ht] at h
      simp [M.pure] at h
    · rw [if_neg ht] at h
      rcases hp : parseGitHubUrl options.repoUrl with _ | ⟨ow, rp⟩ <;> rw [hp] at h
      · simp [M.pure] at h
      · dsimp only at h
        unfold M.bind at h
        rcases ha : authSegment env tok initState with ⟨s1, r1⟩
        rw [ha] at h
        cases r1 with
        | error e => simp [M.pure] at h
        | ok auth =>
          dsimp only at h
          rcases h2 : afterAuth env options (normalizeRepoComponent ow)
              (normalizeRepoComponent rp) auth.1 (jsToLower (jsTrim auth.2)) s1 with ⟨s2, r2⟩
          rw [h2] at h
          cases r2 with
          | error e => simp [M.pure] at h
          | ok res =>
            dsimp only at h
            have hbr := branch_afterAuth_clock h2 d h
            have ht1 : s1.tIdx = 0 := (authSegment_ok ha).2.2.2.1
            rw [ht1] at hbr
            exact hbr

/-- C7: every created branch name matches `code0-<integer>` (the integer is
the run's `Date.now()` reading), and across two runs whose clock readings
are non-decreasing — as wall-clock time is — the integers are
non-decreasing. -/
theorem createGitHubPR_branch_names (env1 env2 : Env)
    (options1 options2 : CreatePROptions) (d1 d2 : PRData)
    (h1 : (createGitHubPR env1 options1).data = some d1)
    (h2 : (createGitHubPR env2 options2).data = some d2)
    (hclock : env1.clock 0 ≤ env2.clock 0) :
    (∃ n1 n2, d1.branchName = mkBranchName n1 ∧ d2.branchName = mkBranchName n2 ∧
      n1 ≤ n2) ∧
    (∀ env options d, (createGitHubPR env options).data = some d →
      ∃ n, d.branchName = mkBranchName n) := by
  constructor
  · exact ⟨env1.clock 0, env2.clock 0, branchName_clock0 h1, branchName_clock0 h2, hclock⟩
  · intro env options d h
    exact ⟨env.clock 0, branchName_clock0 h⟩

/-- A second successful run, two clock ticks later. -/
def laterEnv : Env :=
  { githubToken := some "token"
    oracle := plainEnv.oracle
    clock := fun _ => 9
    isoClock := plainEnv.isoClock }

/-- C7 witness: two concrete successful runs on `github.com/a/b` at clock
values 7 and 9. -/
theorem createGitHubPR_branch_names_witness :
    ∃ n1 n2,
      ({ prUrl := "https://github.com/a/b/pulls", branchName := "code0-7",
         sandboxId := "wmwx2g", forked := false, forkUrl := none } : PRData).branchName =
        mkBranchName n1 ∧
      ({ prUrl := "https://github.com/a/b/pulls", branchName := "code0-9",
         sandboxId := "wmwx2g", forked := false, forkUrl := none } : PRData).branchName =
        mkBranchName n2 ∧
      n1 ≤ n2 :=
  (createGitHubPR_branch_names plainEnv laterEnv schemelessOpts schemelessOpts
    { prUrl := "https://github.com/a/b/pulls", branchName := "code0-7",
      sandboxId := "wmwx2g", forked := false, forkUrl := none }
    { prUrl := "https://github.com/a/b/pulls", branchName := "code0-9",
      sandboxId := "wmwx2g", forked := false, forkUrl := none }
    (by decide) (by decide) (by decide)).1

/- ## Claims C5 and C6: the change applicator -/

theorem fsEffects_append (l1 l2 : List Effect) :
    fsEffects (l1 ++ l2) = fsEffects l1 ++ fsEffects l2 := by
  unfold fsEffects
  exact List.filter_append l1 l2

theorem fsEffects_writes (d : String) (l : List FileChange) :
    fsEffects (l.map (fun c => Effect.writeTextFile (d ++ "/" ++ c.path) c.content)) =
      l.map (fun c => Effect.writeTextFile (d ++ "/" ++ c.path) c.content) := by
  induction l with
  | nil => rfl
  | cons c rest ih => simp [fsEffects, isFsEffect, List.filter_cons] at ih ⊢

/-- Under a never-throwing oracle, the write loop performs exactly the
supplied writes, in order. -/
theorem applyFileChanges_ok {env : Env} {d : String} (henv : OkEnv env) :
    ∀ (l : List FileChange) (s : RunState), ∃ s1,
      applyFileChanges env d l s = (s1, Except.ok ()) ∧
      s1.trace = s.trace ++
        l.map (fun c => Effect.writeTextFile (d ++ "/" ++ c.path) c.content) := by
  intro l
  induction l with
  | nil => exact fun s => ⟨s, rfl, by simp⟩
  | cons c rest ih =>
    intro s
    rcases ho : env.oracle s.oIdx with o | v
    · obtain ⟨s1, hrest, htr⟩ := ih ⟨s.oIdx + 1, s.tIdx, s.trace ++ [Effect.writeTextFile (d ++ "/" ++ c.path) c.content]⟩
      refine ⟨s1, ?_, ?_⟩
      · unfold applyFileChanges
        rw [bind_effRun_eq, ho]
        exact hrest
      · rw [htr]
        simp
    · exact absurd ho (henv _ _)

/-- C5: with a non-empty list of file edits, every file-system effect of
the run is exactly one supplied (path, content) write, in order — in
particular no README read and no default README append happen. -/
theorem createGitHubPR_applies_file_changes (env : Env) (options : CreatePROptions)
    (tok ow rp : String) (l : List FileChange)
    (henv : OkEnv env) (htok : env.githubToken = some tok) (ht : tok ≠ "")
    (hparse : parseGitHubUrl options.repoUrl = some (ow, rp))
    (hfc : options.fileChanges = some l) (hl : l ≠ []) :
    fsEffects (traceOf env options) =
      l.map (fun c => Effect.writeTextFile
        (normalizeRepoComponent rp ++ "/" ++ c.path) c.content) := by
  have hbody : createGitHubPRBody env options =
      M.bind (authSegment env tok)
        (fun auth => afterAuth env options (normalizeRepoComponent ow)
          (normalizeRepoComponent rp) auth.1 (jsToLower (jsTrim auth.2))) := by
    unfold createGitHubPRBody
    rw [htok]
    dsimp only
    rw [if_neg ht, hparse]
  unfold traceOf runCreateGitHubPR createGitHubPRM
  rw [tryCatch_pure_handler_state, hbody]
  unfold M.bind
  obtain ⟨s1, auth, ha⟩ := @noThrow_authSegment env tok henv initState
  rw [ha]
  dsimp only
  have hfs1 : fsEffects s1.trace = [] := by
    have h2 := @fsQuiet_authSegment env tok initState
    rw [ha] at h2
    exact h2
  unfold afterAuth M.bind
  rcases forkResolve_cases env options.repoUrl (normalizeRepoComponent ow)
    (normalizeRepoComponent rp) (jsToLower (jsTrim auth.2)) with ⟨w, fk, fu, heq⟩
  rw [heq]
  dsimp only [M.pure]
  unfold mainFlow M.bind
  obtain ⟨sA, uA, hcA⟩ := @noThrow_cloneSegment env options.repoUrl w (normalizeRepoComponent rp) fk henv s1
  rw [hcA]
  dsimp only
  have hfsA : fsEffects sA.trace = [] := by
    have h2 := @fsQuiet_cloneSegment env options.repoUrl w (normalizeRepoComponent rp) fk s1
    rw [hcA] at h2
    rw [h2, hfs1]
  obtain ⟨sB, uB, hsB⟩ := @noThrow_syncSegment env (normalizeRepoComponent rp) fk henv sA
  rw [hsB]
  dsimp only
  have hfsB : fsEffects sB.trace = [] := by
    have h2 := @fsQuiet_syncSegment env (normalizeRepoComponent rp) fk sA
    rw [hsB] at h2
    rw [h2, hfsA]
  obtain ⟨sC, b, hbC⟩ := @noThrow_branchSegment env (normalizeRepoComponent rp) henv sB
  rw [hbC]
  dsimp only
  have hfsC : fsEffects sC.trace = [] := by
    have h2 := @fsQuiet_branchSegment env (normalizeRepoComponent rp) sB
    rw [hbC] at h2
    rw [h2, hfsB]
  have hgetd : options.fileChanges.getD [] = l := by
    rw [hfc]
    rfl
  rw [hgetd]
  have hcs : changesSegment env (normalizeRepoComponent rp) l =
      applyFileChanges env (normalizeRepoComponent rp) l := by
    unfold changesSegment
    rw [if_pos (List.length_pos.mpr hl)]
  rw [hcs]
  obtain ⟨sD, hap, htr⟩ := applyFileChanges_ok henv l sC
  rw [hap]
  dsimp only
  have hfsP := @fsQuiet_publishSegment env options (normalizeRepoComponent ow)
    (normalizeRepoComponent rp) auth.1 (jsToLower (jsTrim auth.2)) fk fu b sD
  rw [hfsP, htr, fsEffects_append, hfsC, fsEffects_writes]
  rfl

/-- Successful read: the README is written back as
(previous content) ++ (fixed update section with the clock's timestamp). -/
theorem defaultReadmeUpdate_read_ok {env : Env} {d : String} {s : RunState}
    {old o2 : String} (hr : env.oracle s.oIdx = Outcome.ok old)
    (hw : env.oracle (s.oIdx + 1) = Outcome.ok o2) :
    defaultReadmeUpdate env d s =
      (⟨s.oIdx + 2, s.tIdx + 1,
        s.trace ++ [Effect.readTextFile ("./" ++ d ++ "/README.md"),
                    Effect.writeTextFile ("./" ++ d ++ "/README.md")
                      (old ++ readmeAppendSection (env.isoClock s.tIdx))]⟩,
       Except.ok ()) := by
  unfold defaultReadmeUpdate M.tryCatch
  rw [bind_effRun_eq, hr]
  dsimp only
  rw [bind_nowIso_eq, bind_effRun_eq]
  dsimp only
  rw [hw]
  dsimp only [M.pure]
  simp [List.append_assoc]

/-- Failed read: a fresh README with the same section is written (whatever
that write's own outcome). -/
theorem defaultReadmeUpdate_read_fail {env : Env} {d : String} {s : RunState}
    {v : JSVal} (hr : env.oracle s.oIdx = Outcome.thrown v) :
    (defaultReadmeUpdate env d s).1.trace =
      s.trace ++ [Effect.readTextFile ("./" ++ d ++ "/README.md"),
                  Effect.writeTextFile ("./" ++ d ++ "/README.md")
                    (newReadmeContent d (env.isoClock s.tIdx))] := by
  unfold defaultReadmeUpdate M.tryCatch
  rw [bind_effRun_eq, hr]
  dsimp only
  rw [bind_nowIso_eq, bind_effRun_eq]
  dsimp only
  rcases h2 : env.oracle (s.oIdx + 1) with o2 | v2 <;> dsimp only [M.pure] <;>
    simp [List.append_assoc]

/-- Creating the branch consumes exactly one clock tick. -/
theorem branchSegment_tIdx {env : Env} {d : String} {s s3 : RunState}
    {r : Except JSVal String} (h : branchSegment env d s = (s3, r)) :
    s3.tIdx = s.tIdx + 1 := by
  unfold branchSegment at h
  rw [bind_nowMs_eq, bind_effRun_eq] at h
  rcases ho : env.oracle s.oIdx with o | v <;> rw [ho] at h <;>
    dsimp only [M.pure] at h <;> cases h <;> rfl

/-- The oracle cursor equals the trace length, so the i-th issued effect
consumes oracle index i: the oracle outcome at an effect's position in the
trace is that effect's result. -/
def SyncIdx {α : Type} (x : M α) : Prop :=
  ∀ s, s.oIdx = s.trace.length → (x s).1.oIdx = (x s).1.trace.length

theorem syncIdx_pure {α : Type} {a : α} : SyncIdx (M.pure a) := fun _ h => h

theorem syncIdx_bind {α β : Type} {x : M α} {f : α → M β}
    (hx : SyncIdx x) (hf : ∀ a, SyncIdx (f a)) : SyncIdx (M.bind x f) := by
  intro s hs
  unfold M.bind
  rcases h2 : x s with ⟨s2, r⟩
  have hx2 := hx s hs
  rw [h2] at hx2
  cases r with
  | ok a => exact hf a s2 hx2
  | error e => exact hx2

theorem syncIdx_tryCatch {α : Type} {x : M α} {h : JSVal → M α}
    (hx : SyncIdx x) (hh : ∀ e, SyncIdx (h e)) : SyncIdx (M.tryCatch x h) := by
  intro s hs
  unfold M.tryCatch
  rcases h2 : x s with ⟨s2, r⟩
  have hx2 := hx s hs
  rw [h2] at hx2
  cases r with
  | ok a => exact hx2
  | error e => exact hh e s2 hx2

theorem syncIdx_ite {α : Type} {c : Prop} [Decidable c] {x y : M α}
    (hx : SyncIdx x) (hy : SyncIdx y) : SyncIdx (if c then x else y) := by
  by_cases h : c
  · simpa [h] using hx
  · simpa [h] using hy

theorem syncIdx_effRun {env : Env} {e : Effect} : SyncIdx (effRun env e) := by
  intro s hs
  simp [effRun, hs]

theorem syncIdx_nowMs {env : Env} : SyncIdx (nowMs env) := fun _ h => h

theorem syncIdx_nowIso {env : Env} : SyncIdx (nowIso env) := fun _ h => h

theorem syncIdx_authSegment {env : Env} {tok : String} :
    SyncIdx (authSegment env tok) := by
  unfold authSegment
  repeat
    first
      | exact syncIdx_pure
      | refine syncIdx_bind syncIdx_effRun (fun _ => ?_)

theorem syncIdx_cloneSegment {env : Env} {ru wu d : String} {fk : Bool} :
    SyncIdx (cloneSegment env ru wu d fk) := by
  unfold cloneSegment
  repeat
    first
      | exact syncIdx_pure
      | apply syncIdx_ite
      | refine syncIdx_tryCatch ?_ (fun _ => ?_)
      | refine syncIdx_bind syncIdx_effRun (fun _ => ?_)
      | refine syncIdx_bind ?_ (fun _ => ?_)

theorem syncIdx_syncSegment {env : Env} {d : String} {fk : Bool} :
    SyncIdx (syncSegment env d fk) := by
  unfold syncSegment
  repeat
    first
      | exact syncIdx_pure
      | apply syncIdx_ite
      | refine syncIdx_tryCatch ?_ (fun _ => ?_)
      | refine syncIdx_bind syncIdx_effRun (fun _ => ?_)
      | refine syncIdx_bind ?_ (fun _ => ?_)

theorem syncIdx_branchSegment {env : Env} {d : String} :
    SyncIdx (branchSegment env d) := by
  unfold branchSegment
  refine syncIdx_bind syncIdx_nowMs (fun _ => ?_)
  exact syncIdx_bind syncIdx_effRun (fun _ => syncIdx_pure)

/-- C6: with no file edits, the run's only file-system effects are reading
`README.md` and writing it back — the prior content `old` unchanged,
followed by the fixed AI Agent Update section carrying the run's
timestamp.  `old` is pinned to the read's own result: the read sits at
position `l1.length` of the trace, and since the i-th issued effect
consumes oracle index i, the oracle outcome at that index — which is what
the read returned — is exactly `old`.  And whenever the read (or the
append write) throws, a fresh README containing the same section is
written instead, so a rerun appends a new timestamped section rather than
corrupting prior content. -/
theorem createGitHubPR_default_readme (env : Env) (options : CreatePROptions)
    (tok ow rp : String)
    (henv : OkEnv env) (htok : env.githubToken = some tok) (ht : tok ≠ "")
    (hparse : parseGitHubUrl options.repoUrl = some (ow, rp))
    (hfc : options.fileChanges.getD [] = []) :
    (∃ l1 l2 old,
      traceOf env options =
        l1 ++ Effect.readTextFile ("./" ++ normalizeRepoComponent rp ++ "/README.md")
          :: Effect.writeTextFile ("./" ++ normalizeRepoComponent rp ++ "/README.md")
               (old ++ readmeAppendSection (env.isoClock 1)) :: l2 ∧
      env.oracle l1.length = Outcome.ok old ∧
      fsEffects (traceOf env options) =
        [Effect.readTextFile ("./" ++ normalizeRepoComponent rp ++ "/README.md"),
         Effect.writeTextFile ("./" ++ normalizeRepoComponent rp ++ "/README.md")
           (old ++ readmeAppendSection (env.isoClock 1))]) ∧
    (∀ (env2 : Env) (d : String) (s : RunState) (v : JSVal),
      env2.oracle s.oIdx = Outcome.thrown v →
      (defaultReadmeUpdate env2 d s).1.trace =
        s.trace ++ [Effect.readTextFile ("./" ++ d ++ "/README.md"),
                    Effect.writeTextFile ("./" ++ d ++ "/README.md")
                      (newReadmeContent d (env2.isoClock s.tIdx))]) := by
  constructor
  · have hbody : createGitHubPRBody env options =
        M.bind (authSegment env tok)
          (fun auth => afterAuth env options (normalizeRepoComponent ow)
            (normalizeRepoComponent rp) auth.1 (jsToLower (jsTrim auth.2))) := by
      unfold createGitHubPRBody
      rw [htok]
      dsimp only
      rw [if_neg ht, hparse]
    obtain ⟨s1, auth, ha⟩ := @noThrow_authSegment env tok henv initState
    have hfs1 : fsEffects s1.trace = [] := by
      have h2 := @fsQuiet_authSegment env tok initState
      rw [ha] at h2
      exact h2
    have ht1 : s1.tIdx = 0 := (authSegment_ok ha).2.2.2.1
    have hsync1 : s1.oIdx = s1.trace.length := by
      have h2 := @syncIdx_authSegment env tok initState rfl
      rw [ha] at h2
      exact h2
    rcases forkResolve_cases env options.repoUrl (normalizeRepoComponent ow)
      (normalizeRepoComponent rp) (jsToLower (jsTrim auth.2)) with ⟨w, fk, fu, heq⟩
    obtain ⟨sA, uA, hcA⟩ := @noThrow_cloneSegment env options.repoUrl w
      (normalizeRepoComponent rp) fk henv s1
    have hfsA : fsEffects sA.trace = [] := by
      have h2 := @fsQuiet_cloneSegment env options.repoUrl w (normalizeRepoComponent rp) fk s1
      rw [hcA] at h2
      rw [h2, hfs1]
    have htA : sA.tIdx = 0 := by
      have h2 := @tIdxQuiet_cloneSegment env options.repoUrl w (normalizeRepoComponent rp) fk s1
      rw [hcA] at h2
      rw [h2, ht1]
    have hsyncA : sA.oIdx = sA.trace.length := by
      have h2 := @syncIdx_cloneSegment env options.repoUrl w (normalizeRepoComponent rp) fk s1 hsync1
      rw [hcA] at h2
      exact h2
    obtain ⟨sB, uB, hsB⟩ := @noThrow_syncSegment env (normalizeRepoComponent rp) fk henv sA
    have hfsB : fsEffects sB.trace = [] := by
      have h2 := @fsQuiet_syncSegment env (normalizeRepoComponent rp) fk sA
      rw [hsB] at h2
      rw [h2, hfsA]
    have htB : sB.tIdx = 0 := by
      have h2 := @tIdxQuiet_syncSegment env (normalizeRepoComponent rp) fk sA
      rw [hsB] at h2
      rw [h2, htA]
    have hsyncB : sB.oIdx = sB.trace.length := by
      have h2 := @syncIdx_syncSegment env (normalizeRepoComponent rp) fk sA hsyncA
      rw [hsB] at h2
      exact h2
    obtain ⟨sC, b, hbC⟩ := @noThrow_branchSegment env (normalizeRepoComponent rp) henv sB
    have hfsC : fsEffects sC.trace = [] := by
      have h2 := @fsQuiet_branchSegment env (normalizeRepoComponent rp) sB
      rw [hbC] at h2
      rw [h2, hfsB]
    have htC : sC.tIdx = 1 := by
      rw [branchSegment_tIdx hbC, htB]
    have hsyncC : sC.oIdx = sC.trace.length := by
      have h2 := @syncIdx_branchSegment env (normalizeRepoComponent rp) sB hsyncB
      rw [hbC] at h2
      exact h2
    have hcs : changesSegment env (normalizeRepoComponent rp) [] =
        defaultReadmeUpdate env (normalizeRepoComponent rp) := by
      unfold changesSegment
      rw [if_neg (by decide : ¬ ([] : List FileChange).length > 0)]
    rcases hold : env.oracle sC.oIdx with old | v
    case thrown => exact absurd hold (henv _ _)
    rcases hw2 : env.oracle (sC.oIdx + 1) with o2 | v2
    case thrown => exact absurd hw2 (henv _ _)
    have htr : traceOf env options =
        (publishSegment env options (normalizeRepoComponent ow)
          (normalizeRepoComponent rp) auth.1 (jsToLower (jsTrim auth.2)) fk fu b
          ⟨sC.oIdx + 2, sC.tIdx + 1,
            sC.trace ++ [Effect.readTextFile ("./" ++ normalizeRepoComponent rp ++ "/README.md"),
              Effect.writeTextFile ("./" ++ normalizeRepoComponent rp ++ "/README.md")
                (old ++ readmeAppendSection (env.isoClock sC.tIdx))]⟩).1.trace := by
      unfold traceOf runCreateGitHubPR createGitHubPRM
      rw [tryCatch_pure_handler_state, hbody]
      unfold M.bind
      rw [ha]
      dsimp only
      unfold afterAuth M.bind
      rw [heq]
      dsimp only [M.pure]
      unfold mainFlow M.bind
      rw [hcA]
      dsimp only
      rw [hsB]
      dsimp only
      rw [hbC]
      dsimp only
      rw [hfc, hcs, defaultReadmeUpdate_read_ok hold hw2]
    obtain ⟨l2, hl2⟩ := @growsTrace_publishSegment env options
      (normalizeRepoComponent ow) (normalizeRepoComponent rp) auth.1
      (jsToLower (jsTrim auth.2)) fk fu b
      ⟨sC.oIdx + 2, sC.tIdx + 1,
        sC.trace ++ [Effect.readTextFile ("./" ++ normalizeRepoComponent rp ++ "/README.md"),
          Effect.writeTextFile ("./" ++ normalizeRepoComponent rp ++ "/README.md")
            (old ++ readmeAppendSection (env.isoClock sC.tIdx))]⟩
    refine ⟨sC.trace, l2, old, ?_, ?_, ?_⟩
    · rw [htr, hl2, htC]
      dsimp only
      rw [List.append_assoc]
      rfl
    · rw [← hsyncC]
      exact hold
    · rw [htr]
      have hfsP := @fsQuiet_publishSegment env options (normalizeRepoComponent ow)
        (normalizeRepoComponent rp) auth.1 (jsToLower (jsTrim auth.2)) fk fu b
        ⟨sC.oIdx + 2, sC.tIdx + 1,
          sC.trace ++ [Effect.readTextFile ("./" ++ normalizeRepoComponent rp ++ "/README.md"),
            Effect.writeTextFile ("./" ++ normalizeRepoComponent rp ++ "/README.md")
              (old ++ readmeAppendSection (env.isoClock sC.tIdx))]⟩
      rw [hfsP]
      show fsEffects (sC.trace ++ _) = _
      rw [fsEffects_append, hfsC, htC]
      rfl
  · intro env2 d s v hv
    exact defaultReadmeUpdate_read_fail hv

theorem plainEnv_ok : OkEnv plainEnv := by
  intro i v
  simp only [plainEnv]
  split_ifs <;> simp

def editOpts : CreatePROptions :=
  { repoUrl := "https://github.com/a/b"
    fileChanges := some [{ path := "a.txt", content := "x" }] }

/-- C5 witness: one concrete run with the single edit `a.txt` ↦ `x`. -/
theorem createGitHubPR_applies_file_changes_witness :
    fsEffects (traceOf plainEnv editOpts) =
      [({ path := "a.txt", content := "x" } : FileChange)].map
        (fun c => Effect.writeTextFile
          (normalizeRepoComponent "b" ++ "/" ++ c.path) c.content) :=
  createGitHubPR_applies_file_changes plainEnv editOpts "token" "a" "b"
    [{ path := "a.txt", content := "x" }] plainEnv_ok rfl (by decide) (by decide)
    rfl (by decide)

def noEditOpts : CreatePROptions := { repoUrl := "https://github.com/a/b" }

/-- C6 witness: a concrete run with no edits, and a concrete failing read. -/
theorem createGitHubPR_default_readme_witness :
    (∃ l1 l2 old,
      traceOf plainEnv noEditOpts =
        l1 ++ Effect.readTextFile ("./" ++ normalizeRepoComponent "b" ++ "/README.md")
          :: Effect.writeTextFile ("./" ++ normalizeRepoComponent "b" ++ "/README.md")
               (old ++ readmeAppendSection (plainEnv.isoClock 1)) :: l2 ∧
      plainEnv.oracle l1.length = Outcome.ok old ∧
      fsEffects (traceOf plainEnv noEditOpts) =
        [Effect.readTextFile ("./" ++ normalizeRepoComponent "b" ++ "/README.md"),
         Effect.writeTextFile ("./" ++ normalizeRepoComponent "b" ++ "/README.md")
           (old ++ readmeAppendSection (plainEnv.isoClock 1))]) ∧
    (defaultReadmeUpdate (throwingEnv JSVal.nonErr) "b" initState).1.trace =
      [Effect.readTextFile "./b/README.md",
       Effect.writeTextFile "./b/README.md"
         (newReadmeContent "b" ((throwingEnv JSVal.nonErr).isoClock 0))] := by
  have h := createGitHubPR_default_readme plainEnv noEditOpts "token" "a" "b"
    plainEnv_ok rfl (by decide) (by decide) rfl
  exact ⟨h.1, h.2 (throwingEnv JSVal.nonErr) "b" initState JSVal.nonErr rfl⟩

theorem isPrefixOf_exists_rest {l1 l2 : List Char} (h : l1.isPrefixOf l2 = true) :
    ∃ t, l2 = l1 ++ t := by
  rw [ List.isPrefixOf_iff_prefix] at h
  rcases h with ⟨t, ht⟩
  exact ⟨t, ht.symm⟩

/-- What a successful PR-URL scan returns: a substring of the input that
starts with `https://github.com/` followed by a nonempty run of
non-whitespace characters. -/
theorem scanPrUrl_spec : ∀ (l u : List Char), scanPrUrl l = some u →
    (∃ p q, l = p ++ u ++ q) ∧ httpsGhL.isPrefixOf u = true ∧
    (u.drop 19).all (fun c => !isJsWs c) = true ∧ u.drop 19 ≠ []
  | [], u => by
    intro h
    simp [scanPrUrl] at h
  | c :: rest, u => by
    intro h
    unfold scanPrUrl at h
    rcases hat : prUrlAt (c :: rest) with _ | u0 <;> rw [hat] at h
    · obtain ⟨⟨p, q, hpq⟩, hpre, hall, hne⟩ := scanPrUrl_spec rest u h
      refine ⟨⟨c :: p, q, ?_⟩, hpre, hall, hne⟩
      rw [hpq]
      rfl
    · have hu : u0 = u := by
        simpa using h
      subst hu
      unfold prUrlAt at hat
      split at hat
      case isFalse => simp at hat
      case isTrue hp =>
        dsimp only at hat
        split at hat
        case isTrue => simp at hat
        case isFalse hrun =>
          have hu0 : u0 = httpsGhL ++ ((c :: rest).drop 19).takeWhile (fun x => ¬ isJsWs x) := by
            simpa using hat.symm
          obtain ⟨t, hct⟩ := isPrefixOf_exists_rest hp
          have hdrop : (c :: rest).drop 19 = t := by
            rw [hct]
            exact List.drop_left' (by rfl)
          refine ⟨⟨[], (((c :: rest).drop 19).dropWhile (fun x => ¬ isJsWs x)), ?_⟩, ?_, ?_, ?_⟩
          · rw [List.nil_append, hu0, List.append_assoc,
              List.takeWhile_append_dropWhile, hdrop, hct]
          · rw [hu0]
            exact isPrefixOf_append_self _ _
          · rw [hu0, List.drop_left' (by rfl : httpsGhL.length = 19)]
            rw [List.all_eq_true]
            intro x hx
            have := List.mem_takeWhile_imp hx
            simpa using this
          · rw [hu0, List.drop_left' (by rfl : httpsGhL.length = 19)]
            exact hrun

/-- C8: a success result's PR URL is `extractPrUrl` of the text output of
the `gh pr create` command (the segment's fifth oracle step): the first
substring matching the GitHub https-URL pattern — a substring of the
output starting with `https://github.com/` followed by a nonempty run of
non-whitespace — or, when the output contains no match, the constructed
`https://github.com/<owner>/<repoName>/pulls` fallback. -/
theorem createGitHubPR_pr_url_extraction (env : Env) (options : CreatePROptions)
    (o r sid a : String) (fk : Bool) (fu b : String) (s s1 : RunState)
    (res : CreatePRResult) (prOut out2 out3 u : String)
    (h4 : env.oracle (s.oIdx + 4) = Outcome.ok prOut)
    (hpub : publishSegment env options o r sid a fk fu b s = (s1, Except.ok res))
    (hnone : findPrUrl out2 = none)
    (hsome : findPrUrl out3 = some u) :
    res.data.all (fun d => d.prUrl == extractPrUrl prOut o r) = true ∧
    extractPrUrl out2 o r = "https://github.com/" ++ o ++ "/" ++ r ++ "/pulls" ∧
    ((∃ p q, out3.data = p ++ u.data ++ q) ∧
     httpsGhL.isPrefixOf u.data = true ∧
     (u.data.drop 19).all (fun c => !isJsWs c) = true ∧ u.data.drop 19 ≠ []) := by
  refine ⟨?_, ?_, ?_⟩
  · rcases publishSegment_ok hpub with ⟨prOut2, h42, hres⟩
    have hpp : prOut2 = prOut := by
      have h5 := h42.symm.trans h4
      simpa using h5
    subst hres hpp
    simp [Option.all]
  · unfold extractPrUrl
    rw [hnone]
  · unfold findPrUrl at hsome
    rcases hscan : scanPrUrl out3.data with _ | lu <;> rw [hscan] at hsome
    · simp at hsome
    · have hlu : u = ⟨lu⟩ := by
        simpa using hsome.symm
      subst hlu
      exact scanPrUrl_spec out3.data lu hscan

/-- C8 witness: a concrete publish run whose PR-create output has no URL
(fallback taken), one no-match extraction, and one first-match scan. -/
theorem createGitHubPR_pr_url_extraction_witness :
    ({ success := true
       data := some { prUrl := "https://github.com/a/b/pulls", branchName := "code0-7",
                      sandboxId := "wmwx2g", forked := false, forkUrl := none }
       error := none } : CreatePRResult).data.all
        (fun d => d.prUrl == extractPrUrl "wmwx2g" "a" "b") = true ∧
    extractPrUrl "no url here" "a" "b" =
      "https://github.com/" ++ "a" ++ "/" ++ "b" ++ "/pulls" ∧
    ((∃ p q, ("see https://github.com/x/y done" : String).data =
        p ++ ("https://github.com/x/y" : String).data ++ q) ∧
     httpsGhL.isPrefixOf ("https://github.com/x/y" : String).data = true ∧
     (("https://github.com/x/y" : String).data.drop 19).all (fun c => !isJsWs c) = true ∧
     ("https://github.com/x/y" : String).data.drop 19 ≠ []) :=
  createGitHubPR_pr_url_extraction plainEnv noEditOpts "a" "b" "wmwx2g" "a" false ""
    "code0-7" initState
    (publishSegment plainEnv noEditOpts "a" "b" "wmwx2g" "a" false "" "code0-7" initState).1
    { success := true
      data := some { prUrl := "https://github.com/a/b/pulls", branchName := "code0-7",
                     sandboxId := "wmwx2g", forked := false, forkUrl := none }
      error := none }
    "wmwx2g" "no url here" "see https://github.com/x/y done" "https://github.com/x/y"
    rfl rfl (by decide) (by decide)

/- ## Claim C4: ownership and fork behavior -/

theorem isPrefixOf_of_isPrefix {l1 l2 : List Char} (h : l1 <+: l2) :
    l1.isPrefixOf l2 = true := by
  rw [ List.isPrefixOf_iff_prefix]
  exact h

/-- The commands of the non-fork workflow on repository URL `u` in
directory `d`: authentication, directory probing and repair, cloning the
input URL itself, checkout/pull of main, branch creation, staging, email
query, commit, push, same-repository PR creation.  No view-repository,
remote-editing, fetch/merge-upstream or push-to-fork command is in the
set. -/
def commandOkB (u d : String) : Effect → Bool
  | Effect.runCommand c =>
    ("echo \"" : String).data.isPrefixOf c.data ||
    c == "gh auth setup-git" ||
    c == "git config --global user.name 'code0'" ||
    c == "git config --global user.email 'anthony@crafterstation.com'" ||
    c == "gh api user --jq '.login'" ||
    c == "test -d " ++ d ++ " && echo \"exists\" || echo \"not_exists\"" ||
    c == "cd " ++ d ++ " && git status" ||
    c == "rm -rf " ++ d ||
    c == "git clone " ++ u ++ " " ++ d ||
    c == "cd " ++ d ++ " && git checkout main" ||
    c == "cd " ++ d ++ " && git pull origin main" ||
    ("cd " ++ d ++ " && git checkout -b ").data.isPrefixOf c.data ||
    c == "cd " ++ d ++ " && git add ." ||
    c == "cd " ++ d ++ " && gh api user --jq '.email // (.login + \"@users.noreply.github.com\")'" ||
    ("cd " ++ d ++ " && git commit -m \"").data.isPrefixOf c.data ||
    ("cd " ++ d ++ " && git push --set-upstream origin ").data.isPrefixOf c.data ||
    ("cd " ++ d ++ " && gh pr create --title \"").data.isPrefixOf c.data
  | _ => true

theorem cmdOk_echo {u d tok : String} :
    commandOkB u d (Effect.runCommand ("echo \"" ++ tok ++ "\" | gh auth login --with-token")) = true := by
  unfold commandOkB
  have hp : ("echo \"" : String).data.isPrefixOf
      (("echo \"" ++ tok ++ "\" | gh auth login --with-token").data) = true := by
    apply isPrefixOf_of_isPrefix
    simp only [String.data_append]
    repeat
      first
        | exact List.prefix_append _ _
        | refine List.IsPrefix.trans ?_ (List.prefix_append _ _)
  simp [hp]

theorem cmdOk_checkoutB {u d b : String} :
    commandOkB u d (Effect.runCommand ("cd " ++ d ++ " && git checkout -b " ++ b)) = true := by
  unfold commandOkB
  have hp : ("cd " ++ d ++ " && git checkout -b ").data.isPrefixOf
      (("cd " ++ d ++ " && git checkout -b " ++ b).data) = true := by
    apply isPrefixOf_of_isPrefix
    simp only [String.data_append]
    repeat
      first
        | exact List.prefix_append _ _
        | refine List.IsPrefix.trans ?_ (List.prefix_append _ _)
  simp [hp]

theorem cmdOk_commit {u d m : String} :
    commandOkB u d (Effect.runCommand ("cd " ++ d ++ " && git commit -m \"" ++ m ++ "\"")) = true := by
  unfold commandOkB
  have hp : ("cd " ++ d ++ " && git commit -m \"").data.isPrefixOf
      (("cd " ++ d ++ " && git commit -m \"" ++ m ++ "\"").data) = true := by
    apply isPrefixOf_of_isPrefix
    simp only [String.data_append]
    repeat
      first
        | exact List.prefix_append _ _
        | refine List.IsPrefix.trans ?_ (List.prefix_append _ _)
  simp [hp]

theorem cmdOk_push {u d b : String} :
    commandOkB u d (Effect.runCommand ("cd " ++ d ++ " && git push --set-upstream origin " ++ b)) = true := by
  unfold commandOkB
  have hp : ("cd " ++ d ++ " && git push --set-upstream origin ").data.isPrefixOf
      (("cd " ++ d ++ " && git push --set-upstream origin " ++ b).data) = true := by
    apply isPrefixOf_of_isPrefix
    simp only [String.data_append]
    repeat
      first
        | exact List.prefix_append _ _
        | refine List.IsPrefix.trans ?_ (List.prefix_append _ _)
  simp [hp]

theorem cmdOk_prCreate {u d t body a2 b o2 r2 : String} :
    commandOkB u d (Effect.runCommand (prCreateCmd d t body a2 b o2 r2 false)) = true := by
  unfold commandOkB prCreateCmd
  rw [if_neg (by decide : ¬ (false : Bool) = true)]
  have hp : ("cd " ++ d ++ " && gh pr create --title \"").data.isPrefixOf
      (("cd " ++ d ++ " && gh pr create --title \"" ++ t ++ "\" --body \"" ++ body
        ++ "\" --head " ++ b ++ " --base main").data) = true := by
    apply isPrefixOf_of_isPrefix
    simp only [String.data_append]
    repeat
      first
        | exact List.prefix_append _ _
        | refine List.IsPrefix.trans ?_ (List.prefix_append _ _)
  simp [hp]

theorem cmdOk_nonCmd {u d : String} {e : Effect} (h : ∀ c, e ≠ Effect.runCommand c) :
    commandOkB u d e = true := by
  cases e with
  | runCommand c => exact absurd rfl (h c)
  | _ => rfl

theorem cmdOk_authSegment {env : Env} {tok u d : String} :
    TraceAll (fun e => commandOkB u d e = true) (authSegment env tok) := by
  unfold authSegment
  refine traceAll_bind (traceAll_effRun rfl) (fun _ => ?_)
  refine traceAll_bind (traceAll_effRun rfl) (fun _ => ?_)
  refine traceAll_bind (traceAll_effRun cmdOk_echo) (fun _ => ?_)
  refine traceAll_bind (traceAll_effRun (by simp [commandOkB])) (fun _ => ?_)
  refine traceAll_bind (traceAll_effRun (by simp [commandOkB])) (fun _ => ?_)
  refine traceAll_bind (traceAll_effRun (by simp [commandOkB])) (fun _ => ?_)
  refine traceAll_bind (traceAll_effRun (by simp [commandOkB])) (fun _ => ?_)
  exact traceAll_pure

theorem cmdOk_cloneSegment {env : Env} {u d : String} :
    TraceAll (fun e => commandOkB u d e = true) (cloneSegment env u u d false) := by
  unfold cloneSegment
  simp only [Bool.false_eq_true, if_false]
  refine traceAll_bind (traceAll_tryCatch
    (traceAll_bind (traceAll_effRun (by simp [commandOkB])) (fun _ => traceAll_pure))
    (fun _ => traceAll_pure)) (fun d0 => ?_)
  refine traceAll_bind ?_ (fun dE => ?_)
  · apply traceAll_ite
    · refine traceAll_tryCatch ?_ (fun _ => ?_)
      · refine traceAll_bind (traceAll_effRun (by simp [commandOkB])) (fun _ => ?_)
        exact traceAll_bind traceAll_pure (fun _ => traceAll_pure)
      · exact traceAll_bind (traceAll_effRun (by simp [commandOkB])) (fun _ => traceAll_pure)
    · exact traceAll_pure
  · apply traceAll_ite
    · exact traceAll_pure
    · refine traceAll_bind (traceAll_effRun (by simp [commandOkB])) (fun _ => ?_)
      exact traceAll_pure

theorem cmdOk_syncSegment {env : Env} {u d : String} :
    TraceAll (fun e => commandOkB u d e = true) (syncSegment env d false) := by
  unfold syncSegment
  simp only [Bool.false_eq_true, if_false]
  refine traceAll_bind (traceAll_effRun (by simp [commandOkB])) (fun _ => ?_)
  exact traceAll_bind (traceAll_effRun (by simp [commandOkB])) (fun _ => traceAll_pure)

theorem cmdOk_branchSegment {env : Env} {u d : String} :
    TraceAll (fun e => commandOkB u d e = true) (branchSegment env d) := by
  unfold branchSegment
  refine traceAll_bind traceAll_nowMs (fun t => ?_)
  exact traceAll_bind (traceAll_effRun cmdOk_checkoutB) (fun _ => traceAll_pure)

theorem cmdOk_applyFileChanges {env : Env} {u d : String} :
    ∀ l, TraceAll (fun e => commandOkB u d e = true) (applyFileChanges env d l)
  | [] => traceAll_pure
  | _ :: rest =>
    traceAll_bind (traceAll_effRun rfl) (fun _ => cmdOk_applyFileChanges rest)

theorem cmdOk_changesSegment {env : Env} {u d : String} {l : List FileChange} :
    TraceAll (fun e => commandOkB u d e = true) (changesSegment env d l) := by
  unfold changesSegment defaultReadmeUpdate
  apply traceAll_ite
  · exact cmdOk_applyFileChanges l
  · refine traceAll_tryCatch ?_ (fun _ => ?_) <;>
      repeat
        first
          | exact traceAll_pure
          | refine traceAll_bind traceAll_nowIso (fun _ => ?_)
          | refine traceAll_bind (traceAll_effRun rfl) (fun _ => ?_)

theorem cmdOk_publishSegment {env : Env} {options : CreatePROptions}
    {u o d sid a fu b : String} :
    TraceAll (fun e => commandOkB u d e = true)
      (publishSegment env options o d sid a false fu b) := by
  unfold publishSegment
  refine traceAll_bind (traceAll_effRun (by simp [commandOkB])) (fun _ => ?_)
  refine traceAll_bind (traceAll_effRun (by simp [commandOkB])) (fun _ => ?_)
  refine traceAll_bind (traceAll_effRun cmdOk_commit) (fun _ => ?_)
  refine traceAll_bind (traceAll_effRun cmdOk_push) (fun _ => ?_)
  refine traceAll_bind traceAll_nowIso (fun _ => ?_)
  refine traceAll_bind (traceAll_effRun cmdOk_prCreate) (fun _ => ?_)
  exact traceAll_bind (traceAll_effRun rfl) (fun _ => traceAll_pure)

theorem cmdOk_mainFlow {env : Env} {options : CreatePROptions}
    {o2 d sid a2 fu : String} :
    TraceAll (fun e => commandOkB options.repoUrl d e = true)
      (mainFlow env options o2 d sid a2 options.repoUrl false fu) := by
  unfold mainFlow
  refine traceAll_bind cmdOk_cloneSegment (fun _ => ?_)
  refine traceAll_bind cmdOk_syncSegment (fun _ => ?_)
  refine traceAll_bind cmdOk_branchSegment (fun _ => ?_)
  refine traceAll_bind cmdOk_changesSegment (fun _ => ?_)
  exact cmdOk_publishSegment

theorem forkData_publish {env : Env} {options : CreatePROptions}
    {o2 d sid a2 fu b : String} :
    ResultOK (publishSegment env options o2 d sid a2 true fu b)
      (fun res => res.data.all
        (fun dt => dt.forked == true && dt.forkUrl == some fu) = true) := by
  unfold publishSegment
  refine resultOK_bindAny (fun _ => ?_)
  refine resultOK_bindAny (fun _ => ?_)
  refine resultOK_bindAny (fun _ => ?_)
  refine resultOK_bindAny (fun _ => ?_)
  refine resultOK_bindAny (fun _ => ?_)
  refine resultOK_bindAny (fun _ => ?_)
  refine resultOK_bindAny (fun _ => ?_)
  exact resultOK_pure (by simp)

theorem forkData_mainFlow {env : Env} {options : CreatePROptions}
    {o2 d sid a2 w fu : String} :
    ResultOK (mainFlow env options o2 d sid a2 w true fu)
      (fun res => res.data.all
        (fun dt => dt.forked == true && dt.forkUrl == some fu) = true) := by
  unfold mainFlow
  refine resultOK_bindAny (fun _ => ?_)
  refine resultOK_bindAny (fun _ => ?_)
  refine resultOK_bindAny (fun _ => ?_)
  refine resultOK_bindAny (fun _ => ?_)
  exact forkData_publish

/-- C4: once the credential and URL checks pass and the `gh api user`
query returns `rawU`, ownership is decided by comparing the normalized
authenticated user with the parsed owner.  When they are equal, the fork
resolver yields the input URL with `forked = false`, and every command the
whole run ever issues lies in the non-fork command set `commandOkB`
(clone of the input URL itself; no view/fork/remote-edit/upstream-sync
command).  When they differ, the resolver yields the assumed fork URL
`https://github.com/<authedUser>/<repo>` as the working repository with
`forked = true`, and any success result carries `forked = true` and
`forkUrl` set to that URL. -/
theorem createGitHubPR_ownership (env : Env) (options : CreatePROptions)
    (tok ow rp rawU : String)
    (htok : env.githubToken = some tok) (ht : tok ≠ "")
    (hparse : parseGitHubUrl options.repoUrl = some (ow, rp))
    (hu : env.oracle 6 = Outcome.ok rawU) :
    (jsToLower (jsTrim rawU) = normalizeRepoComponent ow →
      forkResolve env options.repoUrl (normalizeRepoComponent ow)
          (normalizeRepoComponent rp) (jsToLower (jsTrim rawU)) =
        M.pure (Sum.inr (options.repoUrl, false, "")) ∧
      (traceOf env options).all
        (commandOkB options.repoUrl (normalizeRepoComponent rp)) = true) ∧
    (jsToLower (jsTrim rawU) ≠ normalizeRepoComponent ow →
      forkResolve env options.repoUrl (normalizeRepoComponent ow)
          (normalizeRepoComponent rp) (jsToLower (jsTrim rawU)) =
        M.pure (Sum.inr
          ("https://github.com/" ++ jsToLower (jsTrim rawU) ++ "/" ++ normalizeRepoComponent rp,
           true,
           "https://github.com/" ++ jsToLower (jsTrim rawU) ++ "/" ++ normalizeRepoComponent rp)) ∧
      (createGitHubPR env options).data.all
        (fun dt => dt.forked == true &&
          dt.forkUrl == some ("https://github.com/" ++ jsToLower (jsTrim rawU)
            ++ "/" ++ normalizeRepoComponent rp)) = true) := by
  have hbody : createGitHubPRBody env options =
      M.bind (authSegment env tok)
        (fun auth => afterAuth env options (normalizeRepoComponent ow)
          (normalizeRepoComponent rp) auth.1 (jsToLower (jsTrim auth.2))) := by
    unfold createGitHubPRBody
    rw [htok]
    dsimp only
    rw [if_neg ht, hparse]
  constructor
  · intro heq
    refine ⟨forkResolve_own heq.symm, ?_⟩
    rw [List.all_eq_true]
    intro e he
    unfold traceOf runCreateGitHubPR createGitHubPRM at he
    rw [tryCatch_pure_handler_state, hbody] at he
    unfold M.bind at he
    rcases ha : authSegment env tok initState with ⟨s1, r1⟩
    rw [ha] at he
    have hs1 : ∀ e2 ∈ s1.trace,
        commandOkB options.repoUrl (normalizeRepoComponent rp) e2 = true := by
      have h0 := @cmdOk_authSegment env tok options.repoUrl
        (normalizeRepoComponent rp) initState
        (fun e2 he2 => absurd he2 (List.not_mem_nil _))
      rw [ha] at h0
      exact h0
    cases r1 with
    | error e1 => exact hs1 e he
    | ok auth =>
      dsimp only at he
      have hchar := authSegment_ok ha
      have hau : auth.2 = rawU := by
        have h6 := hchar.2.1
        rw [show initState.oIdx + 6 = 6 from rfl] at h6
        have h7 := h6.symm.trans hu
        simpa using h7
      rw [hau] at he
      unfold afterAuth at he
      rw [forkResolve_own heq.symm, bind_pure_eq] at he
      dsimp only at he
      exact cmdOk_mainFlow s1 hs1 e he
  · intro hne2
    have hfr := @forkResolve_fork env options.repoUrl (normalizeRepoComponent ow)
      (normalizeRepoComponent rp) (jsToLower (jsTrim rawU)) (fun h => hne2 h.symm)
    refine ⟨hfr, ?_⟩
    unfold createGitHubPR runCreateGitHubPR createGitHubPRM M.tryCatch
    rw [hbody]
    unfold M.bind
    rcases ha : authSegment env tok initState with ⟨s1, r1⟩
    cases r1 with
    | error e => rfl
    | ok auth =>
      dsimp only
      have hchar := authSegment_ok ha
      have hau : auth.2 = rawU := by
        have h6 := hchar.2.1
        rw [show initState.oIdx + 6 = 6 from rfl] at h6
        have h7 := h6.symm.trans hu
        simpa using h7
      rw [hau]
      unfold afterAuth
      rw [hfr, bind_pure_eq]
      dsimp only
      rcases hm : mainFlow env options (normalizeRepoComponent ow)
          (normalizeRepoComponent rp) auth.1 (jsToLower (jsTrim rawU))
          ("https://github.com/" ++ jsToLower (jsTrim rawU) ++ "/" ++ normalizeRepoComponent rp)
          true
          ("https://github.com/" ++ jsToLower (jsTrim rawU) ++ "/" ++ normalizeRepoComponent rp)
          s1 with ⟨s2, r2⟩
      cases r2 with
      | error e => rfl
      | ok res =>
        dsimp only
        exact forkData_mainFlow s1 s2 res hm

/-- C4 witness: with owner `a` and authenticated user `a` the whole trace
of a concrete run stays inside the non-fork command set, and with owner
`alice` but authenticated user `bob` the concrete success result has
`forked = true` and `forkUrl = https://github.com/bob/repo`. -/
theorem createGitHubPR_ownership_witness :
    ((traceOf plainEnv noEditOpts).all
      (commandOkB noEditOpts.repoUrl (normalizeRepoComponent "b")) = true) ∧
    ((createGitHubPR forkEnv opts0).data.all
      (fun dt => dt.forked == true &&
        dt.forkUrl == some ("https://github.com/" ++ jsToLower (jsTrim "bob")
          ++ "/" ++ normalizeRepoComponent "repo")) = true) := by
  have h1 := createGitHubPR_ownership plainEnv noEditOpts "token" "a" "b" "a"
    rfl (by decide) (by decide) rfl
  have h2 := createGitHubPR_ownership forkEnv opts0 "token" "alice" "repo" "bob"
    rfl (by decide) (by decide) rfl
  exact ⟨(h1.1 (by decide)).2, (h2.2 (by decide)).2⟩
